import Mathlib

/-!
# secure_socket: dispatch loop, connection contexts and option parsing

A shallow embedding of `src/threaded_server.c` and `src/context.c`.

* Calls that leave the translation unit (`malloc` for a context, `ipc_accept_connection`,
  `ipc_socket_free`, `free`, `pthread_create`, `pthread_exit`, the handler) are recorded as
  `Event`s, in program order.  The results of the calls that the environment decides
  (`malloc`, `ipc_accept_connection`, `pthread_create`) are inputs of the model.
* `unsigned int` is a natural number reduced modulo `2 ^ 32`.
* The `LOG` family only emits to the logging sink and is left out of the trace.
* Dereferencing a NULL pointer and `x % 0` stop the embedded program (`crashed`).
-/

namespace SecureSocket

/-! ## Connection contexts (`context.c`) -/

/-- A non-NULL `secure_socket *`: the connection handle returned by the transport layer. -/
abbrev Handle := Nat

/-- A `logging *`: the identity of a logging sink. -/
abbrev LogRef := Nat

/-- The `thread_context` record: `socket` is NULL (`none`) or a connection handle. -/
structure thread_context where
  socket : Option Handle
  log : LogRef
deriving DecidableEq, Repr

/-- The part of `server_context` the dispatch loop reads: the address of its logging sink. -/
structure server_context where
  log : LogRef
deriving DecidableEq, Repr

/-- Calls observed from outside, in program order. -/
inductive Event where
  /-- The call `client_ctx = malloc(nb_cnx * sizeof(thread_context*))` and whether it
  succeeded. -/
  | array_malloc (nb_cnx : Nat) (ok : Bool)
  /-- The statement `client_ctx[offset] = make_thread_context(NULL, ctx)`: the heap block
  obtained for the context, or NULL. -/
  | context_malloc (offset : Nat) (block : Option Nat)
  /-- The call `ipc_accept_connection(ctx)` and the value it returned. -/
  | ipc_accept_connection (new_client : Option Handle)
  /-- The call `ipc_socket_free(socket, log)`. -/
  | ipc_socket_free (socket : Handle) (log : LogRef)
  /-- The call `free(ctx)` on a context block. -/
  | context_free (block : Nat)
  /-- The call `pthread_create(&tid, &ctx->attr, &handle_client, client_ctx[offset])`:
  the block passed, its content at the time of the call, and whether the call returned 0. -/
  | pthread_create (block : Nat) (arg : thread_context) (ok : Bool)
  /-- The call `pthread_attr_destroy(&ctx->attr)`. -/
  | pthread_attr_destroy
  /-- The call `free(client_ctx)`. -/
  | array_free
  /-- The call `handler(ctx)` made by a worker. -/
  | handler (ctx : thread_context)
  /-- The call `pthread_exit((void*)0)`. -/
  | pthread_exit
deriving DecidableEq, Repr

/-- The function `make_thread_context(socket, s_ctx)`: NULL when `malloc` fails, otherwise a
context holding `socket` and the address of the server's logging sink. -/
def make_thread_context (malloc_ok : Bool) (socket : Option Handle) (s_ctx : server_context) :
    Option thread_context :=
  if malloc_ok then some { socket := socket, log := s_ctx.log } else none

/-- The function `free_thread_context(ctx)` for a context living in heap block `block`. -/
def free_thread_context (block : Nat) (ctx : thread_context) : List Event :=
  (match ctx.socket with
    | some socket => [Event.ipc_socket_free socket ctx.log]
    | none => []) ++ [Event.context_free block]

/-! ## The worker and the dispatch loop (`threaded_server.c`) -/

/-- The function `handle_client(args)`: the worker body.  The handler is defined outside the
two source files; `handler` gives the calls it makes. -/
def handle_client (handler : thread_context → List Event) (args : thread_context) : List Event :=
  [Event.handler args] ++ handler args ++ [Event.pthread_exit]

/-- Range of `unsigned int`. -/
def UINT_RANGE : Nat := 2 ^ 32

/-- The value of an `unsigned int` after `++`. -/
def increment (x : Nat) : Nat := (x + 1) % UINT_RANGE

/-- The value of an `unsigned int` after `--`: 0 wraps to `2 ^ 32 - 1`. -/
def decrement (x : Nat) : Nat := if x = 0 then UINT_RANGE - 1 else x - 1

/-- Local variables of `threaded_server` that live across iterations. -/
structure loop_state where
  /-- The counter `count`. -/
  count : Nat
  /-- The counter `nb_authorised_errors`. -/
  nb_authorised_errors : Nat
  /-- The array `client_ctx`: each entry is a context block or holds no valid pointer. -/
  client_ctx : List (Option Nat)
  /-- Number of context blocks `malloc` has handed out so far; the next block gets this number. -/
  blocks : Nat
  /-- Set when the program has hit undefined behaviour. -/
  crashed : Bool
deriving DecidableEq, Repr

/-- What the environment decides during one iteration of the loop. -/
structure iteration_env where
  /-- Whether `malloc` inside `make_thread_context` succeeds. -/
  malloc_ok : Bool
  /-- The value returned by `ipc_accept_connection`. -/
  new_client : Option Handle
  /-- Whether `pthread_create` returns 0 (only consulted when the call is reached). -/
  spawn_ok : Bool
deriving DecidableEq, Repr

/-- One pass through the body of `while(nb_authorised_errors)`. -/
def iteration (ctx : server_context) (nb_cnx : Nat) (st : loop_state) (e : iteration_env) :
    loop_state × List Event :=
  if nb_cnx = 0 then
    -- `count++ % nb_cnx` divides by zero
    ({ st with crashed := true }, [])
  else
    let offset := st.count % nb_cnx
    let count := increment st.count
    match make_thread_context e.malloc_ok none ctx with
    | none =>
      -- both branches below dereference `client_ctx[offset]`, which is NULL
      ({ st with count := count, client_ctx := st.client_ctx.set offset none, crashed := true },
        [Event.context_malloc offset none, Event.ipc_accept_connection e.new_client])
    | some c =>
      let block := st.blocks
      let client_ctx := st.client_ctx.set offset (some block)
      match e.new_client with
      | none =>
        ({ count := decrement count,
           nb_authorised_errors := decrement st.nb_authorised_errors,
           client_ctx := client_ctx,
           blocks := block + 1,
           crashed := st.crashed },
          [Event.context_malloc offset (some block), Event.ipc_accept_connection none]
            ++ free_thread_context block c)
      | some new_client =>
        let c := { c with socket := some new_client }
        if e.spawn_ok then
          ({ count := count,
             nb_authorised_errors := st.nb_authorised_errors,
             client_ctx := client_ctx,
             blocks := block + 1,
             crashed := st.crashed },
            [Event.context_malloc offset (some block),
             Event.ipc_accept_connection (some new_client),
             Event.pthread_create block c true])
        else
          ({ count := count,
             nb_authorised_errors := decrement st.nb_authorised_errors,
             client_ctx := client_ctx.set offset none,
             blocks := block + 1,
             crashed := st.crashed },
            [Event.context_malloc offset (some block),
             Event.ipc_accept_connection (some new_client),
             Event.pthread_create block c false]
              ++ free_thread_context block c)

/-- The loop `while(nb_authorised_errors) { ... }`, run for as many iterations as the
environment list describes (or until the loop exits or the program crashes). -/
def daemon_loop (ctx : server_context) (nb_cnx : Nat) :
    loop_state → List iteration_env → loop_state × List Event
  | st, [] => (st, [])
  | st, e :: es =>
    if st.crashed = true ∨ st.nb_authorised_errors = 0 then (st, [])
    else
      let r := iteration ctx nb_cnx st e
      let r2 := daemon_loop ctx nb_cnx r.1 es
      (r2.1, r.2 ++ r2.2)

/-- What the environment decides during a run of `threaded_server`. -/
structure environment where
  /-- Whether the `malloc` of the `client_ctx` array succeeds. -/
  array_malloc_ok : Bool
  /-- The successive iterations. -/
  iterations : List iteration_env
deriving DecidableEq, Repr

/-- State of the locals on entry to the loop. -/
def initial_state (nb_cnx : Nat) : loop_state :=
  { count := 0, nb_authorised_errors := 50, client_ctx := List.replicate nb_cnx none,
    blocks := 0, crashed := false }

/-- The function `threaded_server(ctx, nb_cnx)`. The clean-up after the loop is reached only
when the loop has exited. -/
def threaded_server (ctx : server_context) (nb_cnx : Nat) (env : environment) :
    loop_state × List Event :=
  if env.array_malloc_ok then
    let r := daemon_loop ctx nb_cnx (initial_state nb_cnx) env.iterations
    (r.1, [Event.array_malloc nb_cnx true] ++ r.2 ++
      (if r.1.crashed = false ∧ r.1.nb_authorised_errors = 0
        then [Event.pthread_attr_destroy, Event.array_free] else []))
  else
    (initial_state nb_cnx, [Event.array_malloc nb_cnx false])

/-! ### Reading a trace -/

/-- The slot offsets used by the successive iterations. -/
def offsets : List Event → List Nat
  | [] => []
  | Event.context_malloc offset _ :: evs => offset :: offsets evs
  | _ :: evs => offsets evs

/-- Number of iterations started: each one assigns a slot first. -/
def attempts (evs : List Event) : Nat := (offsets evs).length

/-- Number of times the `client_ctx` array is allocated. -/
def arrays_allocated (evs : List Event) : Nat :=
  evs.countP (fun ev => match ev with
    | Event.array_malloc _ _ => true
    | _ => false)

/-- Number of context blocks obtained from `malloc`. -/
def contexts_allocated (evs : List Event) : Nat :=
  evs.countP (fun ev => match ev with
    | Event.context_malloc _ (some _) => true
    | _ => false)

/-- Number of context blocks given back with `free`. -/
def contexts_freed (evs : List Event) : Nat :=
  evs.countP (fun ev => match ev with
    | Event.context_free _ => true
    | _ => false)

/-- Number of workers spawned. -/
def workers_spawned (evs : List Event) : Nat :=
  evs.countP (fun ev => match ev with
    | Event.pthread_create _ _ true => true
    | _ => false)

/-- The handles for which `ipc_socket_free` is called, in order. -/
def released : List Event → List Handle
  | [] => []
  | Event.ipc_socket_free socket _ :: evs => socket :: released evs
  | _ :: evs => released evs

/-- The context blocks obtained from `malloc`, in order. -/
def allocated_blocks : List Event → List Nat
  | [] => []
  | Event.context_malloc _ (some block) :: evs => block :: allocated_blocks evs
  | _ :: evs => allocated_blocks evs

/-- The context blocks given back with `free`, in order. -/
def freed_blocks : List Event → List Nat
  | [] => []
  | Event.context_free block :: evs => block :: freed_blocks evs
  | _ :: evs => freed_blocks evs

/-- The result of the last call of `make_thread_context` in a trace (`none` is NULL); `current`
is the result of the last call before the trace. -/
def last_allocated (current : Option Nat) : List Event → Option Nat
  | [] => current
  | Event.context_malloc _ block :: evs => last_allocated block evs
  | _ :: evs => last_allocated current evs

/-! ### The three outcomes of an iteration whose context allocation succeeds -/

/-- Outcome of an iteration. -/
inductive outcome where
  /-- The call `ipc_accept_connection` returned NULL. -/
  | denial
  /-- A connection was accepted and `pthread_create` failed. -/
  | spawn_failure (new_client : Handle)
  /-- A connection was accepted and a worker was spawned. -/
  | success (new_client : Handle)
deriving DecidableEq, Repr

/-- The environment of an iteration with the given outcome. -/
def outcome.env : outcome → iteration_env
  | outcome.denial => { malloc_ok := true, new_client := none, spawn_ok := true }
  | outcome.spawn_failure h => { malloc_ok := true, new_client := some h, spawn_ok := false }
  | outcome.success h => { malloc_ok := true, new_client := some h, spawn_ok := true }

/-- Whether the outcome counts against the failure budget. -/
def outcome.is_failure : outcome → Bool
  | outcome.success _ => false
  | _ => true

/-- Number of denials and spawn failures in a list of outcomes. -/
def failures (outs : List outcome) : Nat := outs.countP outcome.is_failure

/-- Number of accepted connections in a list of outcomes (successes and spawn failures). -/
def connections (outs : List outcome) : Nat := outs.countP (fun o => o != outcome.denial)

/-- A run of `threaded_server` whose allocations all succeed, with the given outcomes. -/
def run (ctx : server_context) (nb_cnx : Nat) (outs : List outcome) : loop_state × List Event :=
  threaded_server ctx nb_cnx { array_malloc_ok := true, iterations := outs.map outcome.env }

/-- The outcome of an iteration in which the spawn succeeds: a denial or a success. -/
def accept_outcome : Option Handle → outcome
  | none => outcome.denial
  | some h => outcome.success h

/-- Number of accepted connections in a list of accept results. -/
def accepted (accepts : List (Option Handle)) : Nat := accepts.countP Option.isSome

/-! ## Options (`context.c`)

A region of memory holding characters is a `List Char`; a C string is read from it up to the
first NUL (the end of the list counts as a terminating NUL).  A write past the end of an array
shows as an array longer than its declared size. `long` and `size_t` are 64 bits wide and `int`
is 32 bits wide. -/

/-- The terminating byte of a C string. -/
def NUL : Char := Char.ofNat 0

/-- The C string stored at the start of a region of memory. -/
def c_string (m : List Char) : List Char := m.takeWhile (fun c => c != NUL)

/-- The C function `strlen(s)`. -/
def strlen (s : List Char) : Nat := (c_string s).length

/-- The C function `strchr(s, c)`: the index of the first occurrence of `c` in the string `s`
(the terminating NUL is part of the string), or NULL. -/
def strchr : List Char → Char → Option Nat
  | [], c => if c = NUL then some 0 else none
  | b :: s, c =>
    if b = c then some 0
    else if b = NUL then none
    else (strchr s c).map (fun i => i + 1)

/-- The test `strcmp(a, b) == 0`. -/
def strcmp_zero (a b : List Char) : Bool := c_string a == c_string b

/-- The C function `memset(buf, c, n)`. -/
def memset (buf : List Char) (c : Char) (n : Nat) : List Char :=
  List.replicate n c ++ buf.drop n

/-- The C function `strncpy(dst, src, n)`: at most `n` characters of the string `src`, then
NULs up to `n` bytes written in all. -/
def strncpy (dst src : List Char) (n : Nat) : List Char :=
  (c_string src).take n ++ List.replicate (n - ((c_string src).take n).length) NUL ++ dst.drop n

/-- The C function `strcpy(dst, src)`: the string `src` and its terminating NUL. -/
def strcpy (dst src : List Char) : List Char :=
  c_string src ++ [NUL] ++ dst.drop (strlen src + 1)

/-- The C function `isdigit(c)` in the C locale. -/
def isdigit (c : Char) : Bool := c.isDigit

/-- The C function `isspace(c)` in the C locale. -/
def isspace (c : Char) : Bool :=
  c = Char.ofNat 32 ∨ (9 ≤ c.toNat ∧ c.toNat ≤ 13)

/-- Largest `long`. -/
def LONG_MAX : Int := 2 ^ 63 - 1

/-- Smallest `long`. -/
def LONG_MIN : Int := -(2 ^ 63)

/-- Value of a run of decimal digits. -/
def decimal_value (digits : List Char) : Nat :=
  digits.foldl (fun acc c => 10 * acc + (c.toNat - 48)) 0

/-- The C function `strtol(s, NULL, 10)`: leading white space, an optional sign, then the
longest run of decimal digits (0 when there is none), clamped to the range of `long`. -/
def strtol (s : List Char) : Int :=
  let body := (c_string s).dropWhile isspace
  let signed : Bool × List Char :=
    match body with
    | c :: rest =>
      if c = Char.ofNat 45 then (true, rest)
      else if c = Char.ofNat 43 then (false, rest)
      else (false, body)
    | [] => (false, body)
  let magnitude : Int := decimal_value (signed.2.takeWhile isdigit)
  if signed.1 then max (-magnitude) LONG_MIN else min magnitude LONG_MAX

/-- Conversion to `int`. -/
def to_int (x : Int) : Int := (x + 2 ^ 31) % 2 ^ 32 - 2 ^ 31

/-- Conversion to `unsigned int`. -/
def to_unsigned (x : Int) : Nat := (x % 2 ^ 32).toNat

/-- Conversion to `uint16_t`. -/
def to_uint16 (x : Int) : Nat := (x % 2 ^ 16).toNat

/-- Conversion to `uint8_t`. -/
def to_uint8 (x : Int) : Nat := (x % 2 ^ 8).toNat

/-- Conversion to `size_t`. -/
def to_size_t (x : Int) : Nat := (x % 2 ^ 64).toNat

/-- The loop `for (index = 0; index < bound; index++) if (!isdigit(q[index])) valid = false;`
started with `valid = true`: the final value of `valid`. -/
def digits_loop (q : List Char) (bound : Int) : Bool :=
  (List.range bound.toNat).foldl
    (fun valid index => if !isdigit (q.getD index NUL) then false else valid) true

/-- The value of `AF_UNIX` (and `AF_LOCAL`) in `<sys/socket.h>`. -/
def AF_UNIX : Int := 1

/-- The value of `AF_INET` in `<sys/socket.h>`. -/
def AF_INET : Int := 2

/-- The value of `SOCK_STREAM` in `<sys/socket.h>`. -/
def SOCK_STREAM : Int := 1

/-- The record `ipc_options`, declared in `context.h`: the fields `context.c` reads or writes.
The identity fields are 32-bit unsigned values. -/
structure ipc_options where
  mq_name : List Char
  log_file : List Char
  socket_path : List Char
  verbosity : Int
  domain : Int
  protocol : Int
  port : Nat
  max_connections : Nat
  socket_permissions : List Char
  authorised_peer_username : List Char
  authorised_peer_uid : Nat
  authorised_peer_gid : Nat
  authorised_peer_pid : Nat
  authorised_peer_process_name : List Char
  authorised_peer_cli_args : List Char
deriving DecidableEq, Repr

/-- The value of `sizeof` for each character array of `ipc_options` (declared in `context.h`,
which is not among the source files). -/
structure capacities where
  mq_name : Nat
  log_file : Nat
  socket_path : Nat
  socket_permissions : Nat
  authorised_peer_username : Nat
  authorised_peer_process_name : Nat
  authorised_peer_cli_args : Nat
deriving DecidableEq, Repr

/-- The compiled-in defaults of `vars.h` (not among the source files). -/
structure vars where
  IPC_MQ_NAME : List Char
  IPC_LOG_FILE : List Char
  IPC_SOCKET_PATH : List Char
  IPC_DOMAIN : Int
  IPC_PROTOCOL : Int
  IPC_PORT : Int
  IPC_NB_CNX : Int
  IPC_SOCKET_PERMS : List Char
  IPC_AUTHORIZED_PEER_USERNAME : List Char
  IPC_AUTHORIZED_PEER_UID : Int
  IPC_AUTHORIZED_PEER_GID : Int
  IPC_AUTHORIZED_PEER_PID : Int
deriving DecidableEq, Repr

/-- The function `initialise_options(options)`: `options` is the content of the record on entry. -/
def initialise_options (sz : capacities) (v : vars) (options : ipc_options) : ipc_options :=
  let mq_name_max_size := to_uint16 sz.mq_name
  let log_name_max_size := to_uint16 sz.log_file
  let socket_name_max_size := to_uint8 sz.socket_path
  { options with
    mq_name :=
      strncpy (memset options.mq_name NUL mq_name_max_size) v.IPC_MQ_NAME
        (to_size_t (mq_name_max_size - 1))
    log_file :=
      strncpy (memset options.log_file NUL log_name_max_size) v.IPC_LOG_FILE
        (to_size_t (log_name_max_size - 1))
    socket_path :=
      strncpy (memset options.socket_path NUL socket_name_max_size) v.IPC_SOCKET_PATH
        (to_size_t (socket_name_max_size - 1))
    domain := to_int v.IPC_DOMAIN
    protocol := to_int v.IPC_PROTOCOL
    port := to_uint16 v.IPC_PORT
    max_connections := to_uint8 v.IPC_NB_CNX
    socket_permissions := strcpy options.socket_permissions v.IPC_SOCKET_PERMS
    authorised_peer_username :=
      strcpy options.authorised_peer_username v.IPC_AUTHORIZED_PEER_USERNAME
    authorised_peer_uid := to_unsigned v.IPC_AUTHORIZED_PEER_PID
    authorised_peer_gid := to_unsigned v.IPC_AUTHORIZED_PEER_UID
    authorised_peer_pid := to_unsigned v.IPC_AUTHORIZED_PEER_GID
    authorised_peer_process_name := strcpy options.authorised_peer_process_name []
    authorised_peer_cli_args := strcpy options.authorised_peer_cli_args [] }

/-- The body of the `for` loop of `parse_options` on the argument `arg`: `none` is
`return false`, `some options` is `continue` with the record as it then stands. -/
def parse_argument (sz : capacities) (options : ipc_options) (arg : List Char) :
    Option ipc_options :=
  match strchr arg (Char.ofNat 61) with
  | none => none
  | some i =>
    -- `*q++ = 0` ends the string `p` where the separator was
    let p := arg.take i
    let q := arg.drop (i + 1)
    if strcmp_zero p "mq_name".toList then
      let mq_name_max_size := to_uint16 sz.mq_name
      if q.getD 0 NUL ≠ Char.ofNat 47 ∧ strlen q ≥ mq_name_max_size then none
      else
        some { options with
          mq_name := strncpy (memset options.mq_name NUL mq_name_max_size) q
            (to_size_t (mq_name_max_size - 1)) }
    else if strcmp_zero p "socket_path".toList then
      let socket_name_max_size := to_uint8 sz.socket_path
      if strlen q ≥ socket_name_max_size then none
      else
        some { options with
          socket_path := strncpy (memset options.socket_path NUL socket_name_max_size) q
            (to_size_t (socket_name_max_size - 1)) }
    else if strcmp_zero p "log_file".toList then
      let log_name_max_size := to_uint16 sz.log_file
      if strlen q ≥ log_name_max_size then none
      else
        some { options with
          log_file := strncpy (memset options.log_file NUL log_name_max_size) q
            (to_size_t (log_name_max_size - 1)) }
    else if strcmp_zero p "domain".toList then
      if strcmp_zero q "AF_UNIX".toList ∨ strcmp_zero q "AF_LOCAL".toList then
        some { options with domain := AF_UNIX }
      else if strcmp_zero q "AF_INET".toList then
        some { options with domain := AF_INET }
      else none
    else if strcmp_zero p "protocol".toList then
      if strcmp_zero q "SOCK_STREAM".toList then
        some { options with protocol := SOCK_STREAM }
      else none
    else if strcmp_zero p "port".toList then
      let port := to_int (strtol q)
      if port > 1 ∧ port < 65635 then some { options with port := to_uint16 port }
      else none
    else if strcmp_zero p "max_connections".toList then
      let mx_cnx := to_int (strtol q)
      if mx_cnx > 0 then some { options with max_connections := to_uint8 mx_cnx }
      else none
    else if strcmp_zero p "socket_permissions".toList then
      if strlen q = to_size_t (sz.socket_permissions - 1) ∧
          digits_loop q (to_int sz.socket_permissions - 1) then
        some { options with
          socket_permissions :=
            strncpy (memset options.socket_permissions NUL sz.socket_permissions) q
              (to_size_t (sz.socket_permissions - 1)) }
      else none
    else if strcmp_zero p "authorised_peer_username".toList then
      if strlen q < 31 then
        some { options with
          authorised_peer_username :=
            strncpy (memset options.authorised_peer_username NUL sz.authorised_peer_username) q
              (to_size_t (sz.authorised_peer_username - 1)) }
      else none
    else if strcmp_zero p "authorised_peer_uid".toList then
      if digits_loop q (to_int (strlen q)) then
        some { options with authorised_peer_uid := to_unsigned (strtol q) }
      else none
    else if strcmp_zero p "authorised_peer_gid".toList then
      if digits_loop q (to_int (strlen q)) then
        some { options with authorised_peer_gid := to_unsigned (strtol q) }
      else none
    else if strcmp_zero p "authorised_peer_pid".toList then
      if digits_loop q (to_int (strlen q)) then
        some { options with authorised_peer_pid := to_unsigned (strtol q) }
      else none
    else if strcmp_zero p "authorised_peer_process_name".toList then
      if strlen q < sz.authorised_peer_process_name then
        some { options with
          authorised_peer_process_name :=
            strncpy
              (memset options.authorised_peer_process_name NUL sz.authorised_peer_process_name)
              q (to_size_t (sz.authorised_peer_process_name - 1)) }
      else none
    else if strcmp_zero p "authorised_peer_cli_args".toList then
      if strlen q < sz.authorised_peer_cli_args then
        some { options with
          authorised_peer_cli_args :=
            strncpy (memset options.authorised_peer_cli_args NUL sz.authorised_peer_cli_args)
              q (to_size_t (sz.authorised_peer_cli_args - 1)) }
      else none
    else none

/-- The `for` loop of `parse_options` over the arguments `argv[1]`, `argv[2]`, ...: the value
returned and the record as `parse_options` leaves it. -/
def parse_arguments (sz : capacities) : ipc_options → List (List Char) → Bool × ipc_options
  | options, [] => (true, options)
  | options, arg :: rest =>
    match parse_argument sz options arg with
    | none => (false, options)
    | some updated => parse_arguments sz updated rest

/-- The function `parse_options(options, argc, argv)` with `argc` the length of `argv`: `argv[0]` is
skipped. -/
def parse_options (sz : capacities) (options : ipc_options) (argv : List (List Char)) :
    Bool × ipc_options :=
  parse_arguments sz options (argv.drop 1)

/-- A record whose arrays are empty and whose numbers are 0. -/
def blank_options : ipc_options :=
  { mq_name := [], log_file := [], socket_path := [], verbosity := 0, domain := 0,
    protocol := 0, port := 0, max_connections := 0, socket_permissions := [],
    authorised_peer_username := [], authorised_peer_uid := 0, authorised_peer_gid := 0,
    authorised_peer_pid := 0, authorised_peer_process_name := [],
    authorised_peer_cli_args := [] }

/-- Whether the loop body accepts the argument (`continue`) or rejects it (`return false`).
The tests in the body read the argument and the array sizes only, never the record, so the
record used here does not matter (`parse_argument_isSome`). -/
def valid_argument (sz : capacities) (arg : List Char) : Bool :=
  (parse_argument sz blank_options arg).isSome

/-- The keys `parse_options` compares against. -/
def recognised_keys : List (List Char) :=
  ["mq_name".toList, "socket_path".toList, "log_file".toList, "domain".toList,
   "protocol".toList, "port".toList, "max_connections".toList, "socket_permissions".toList,
   "authorised_peer_username".toList, "authorised_peer_uid".toList,
   "authorised_peer_gid".toList, "authorised_peer_pid".toList,
   "authorised_peer_process_name".toList, "authorised_peer_cli_args".toList]

/-- The text of an argument before its first `=` (the whole string when there is none). -/
def key_of (arg : List Char) : List Char :=
  (c_string arg).takeWhile (fun c => c != Char.ofNat 61)

/-- The argument `key=value`. -/
def token (key value : List Char) : List Char := key ++ Char.ofNat 61 :: value

/-- Whether an array of `cap` characters holds a NUL within its `cap` bytes. -/
def terminated (cap : Nat) (buf : List Char) : Prop := NUL ∈ buf.take cap

/-- Whether every character array of the record holds a NUL within its size. -/
def null_terminated (sz : capacities) (options : ipc_options) : Prop :=
  terminated sz.mq_name options.mq_name ∧
  terminated sz.socket_path options.socket_path ∧
  terminated sz.log_file options.log_file ∧
  terminated sz.socket_permissions options.socket_permissions ∧
  terminated sz.authorised_peer_username options.authorised_peer_username ∧
  terminated sz.authorised_peer_process_name options.authorised_peer_process_name ∧
  terminated sz.authorised_peer_cli_args options.authorised_peer_cli_args

/-! ## Reading a file (`threaded_server.c`) -/

/-- What the environment decides during a call of `read_data_from_source` on a file that
`secure_file_exclusive_open` opens. -/
structure source_env where
  /-- The field `log->fd`, which the function tests after opening the file. -/
  log_fd : Int
  /-- Whether `fstat` reports a regular file. -/
  regular : Bool
  /-- The content of the file; `st_size` is its length. -/
  content : List Char
  /-- Whether `calloc` succeeds. -/
  calloc_ok : Bool
  /-- Whether `read` succeeds (it then reads as many bytes as asked for, if the file has
  them). -/
  read_ok : Bool
deriving DecidableEq, Repr

/-- The value of `sizeof(destination)`, the size of a `char *`. -/
def SIZEOF_POINTER : Nat := 8

/-- The function `read_data_from_source(filename, size, log)`: `none` is a NULL result,
otherwise the buffer returned and the value stored in `*size`. -/
def read_data_from_source (env : source_env) : Option (List Char × Int) :=
  if env.log_fd = -1 then none
  else if env.log_fd = 0 then none
  else if !env.regular then none
  else
    let length := env.content.length
    if !env.calloc_ok then none
    else
      let destination := List.replicate (length + 1) NUL
      -- `read(file, destination, sizeof(destination) - 1)`
      if !env.read_ok then none
      else
        let got := env.content.take (SIZEOF_POINTER - 1)
        let destination := got ++ destination.drop got.length
        let length := got.length
        if length ≠ SIZEOF_POINTER - 1 then none
        else some (destination.set length NUL, to_int length)

/-! ## Lemmas on traces -/

/-- The offsets of a concatenated trace. -/
theorem offsets_append (a b : List Event) : offsets (a ++ b) = offsets a ++ offsets b := by
  induction a with
  | nil => rfl
  | cons x xs ih => cases x <;> simp [offsets, ih]

/-- Unsigned decrement is subtraction of one modulo `2 ^ 32`. -/
theorem decrement_eq_mod (x : Nat) (h : x < UINT_RANGE) :
    decrement x = (x + UINT_RANGE - 1) % UINT_RANGE := by
  unfold decrement UINT_RANGE at *
  split <;> omega

/-- Unsigned decrement after an unsigned increment gives the value back. -/
theorem decrement_increment (c : Nat) (h : c < UINT_RANGE) : decrement (increment c) = c := by
  unfold decrement increment UINT_RANGE at *
  split <;> omega

/-- Unsigned decrement of a positive value. -/
theorem decrement_pos (b : Nat) (h0 : 0 < b) : decrement b = b - 1 := by
  unfold decrement
  rw [if_neg (by omega)]

/-! ## One iteration, outcome by outcome -/

/-- An iteration in which `ipc_accept_connection` returns NULL. -/
theorem iteration_denial (ctx : server_context) (n : Nat) (hn : 0 < n) (st : loop_state) :
    iteration ctx n st outcome.denial.env =
      ({ count := decrement (increment st.count),
         nb_authorised_errors := decrement st.nb_authorised_errors,
         client_ctx := st.client_ctx.set (st.count % n) (some st.blocks),
         blocks := st.blocks + 1,
         crashed := st.crashed },
        [Event.context_malloc (st.count % n) (some st.blocks),
         Event.ipc_accept_connection none,
         Event.context_free st.blocks]) := by
  have h : n ≠ 0 := by omega
  simp [iteration, outcome.env, make_thread_context, free_thread_context, h]

/-- An iteration in which a connection is accepted and `pthread_create` fails. -/
theorem iteration_spawn_failure (ctx : server_context) (n : Nat) (hn : 0 < n) (st : loop_state)
    (new_client : Handle) :
    iteration ctx n st (outcome.spawn_failure new_client).env =
      ({ count := increment st.count,
         nb_authorised_errors := decrement st.nb_authorised_errors,
         client_ctx := (st.client_ctx.set (st.count % n) (some st.blocks)).set (st.count % n) none,
         blocks := st.blocks + 1,
         crashed := st.crashed },
        [Event.context_malloc (st.count % n) (some st.blocks),
         Event.ipc_accept_connection (some new_client),
         Event.pthread_create st.blocks { socket := some new_client, log := ctx.log } false,
         Event.ipc_socket_free new_client ctx.log,
         Event.context_free st.blocks]) := by
  have h : n ≠ 0 := by omega
  simp [iteration, outcome.env, make_thread_context, free_thread_context, h]

/-- An iteration in which a connection is accepted and a worker is spawned. -/
theorem iteration_success (ctx : server_context) (n : Nat) (hn : 0 < n) (st : loop_state)
    (new_client : Handle) :
    iteration ctx n st (outcome.success new_client).env =
      ({ count := increment st.count,
         nb_authorised_errors := st.nb_authorised_errors,
         client_ctx := st.client_ctx.set (st.count % n) (some st.blocks),
         blocks := st.blocks + 1,
         crashed := st.crashed },
        [Event.context_malloc (st.count % n) (some st.blocks),
         Event.ipc_accept_connection (some new_client),
         Event.pthread_create st.blocks { socket := some new_client, log := ctx.log } true]) := by
  have h : n ≠ 0 := by omega
  simp [iteration, outcome.env, make_thread_context, h]

/-- Every iteration with one of the three outcomes uses the offset `count % nb_cnx`, keeps the
program running, and lowers the budget exactly on a failure. -/
theorem iteration_outcome (ctx : server_context) (n : Nat) (hn : 0 < n) (st : loop_state)
    (o : outcome) (hb : 0 < st.nb_authorised_errors) :
    offsets (iteration ctx n st o.env).2 = [st.count % n] ∧
    (iteration ctx n st o.env).1.crashed = st.crashed ∧
    (iteration ctx n st o.env).1.nb_authorised_errors + (if o.is_failure then 1 else 0)
      = st.nb_authorised_errors := by
  cases o with
  | denial =>
    rw [iteration_denial ctx n hn]
    refine ⟨rfl, rfl, ?_⟩
    show decrement st.nb_authorised_errors + 1 = st.nb_authorised_errors
    rw [decrement_pos _ hb]
    omega
  | spawn_failure h =>
    rw [iteration_spawn_failure ctx n hn]
    refine ⟨rfl, rfl, ?_⟩
    show decrement st.nb_authorised_errors + 1 = st.nb_authorised_errors
    rw [decrement_pos _ hb]
    omega
  | success h =>
    rw [iteration_success ctx n hn]
    exact ⟨rfl, rfl, rfl⟩

/-- The counter after an iteration: unchanged by a denial, one more (modulo `2 ^ 32`) when a
connection was accepted, whether or not the spawn succeeded. -/
theorem iteration_count (ctx : server_context) (n : Nat) (hn : 0 < n) (st : loop_state)
    (o : outcome) (hc : st.count < UINT_RANGE) :
    (iteration ctx n st o.env).1.count =
      if o = outcome.denial then st.count else increment st.count := by
  cases o with
  | denial =>
    rw [iteration_denial ctx n hn]
    show decrement (increment st.count) = _
    rw [decrement_increment _ hc, if_pos rfl]
  | spawn_failure h =>
    rw [iteration_spawn_failure ctx n hn, if_neg (by simp)]
  | success h =>
    rw [iteration_success ctx n hn, if_neg (by simp)]

/-- The loop runs one iteration when the program is running and the budget is positive. -/
theorem daemon_loop_cons (ctx : server_context) (n : Nat) (st : loop_state) (e : iteration_env)
    (es : List iteration_env) (hc : st.crashed = false) (hb : 0 < st.nb_authorised_errors) :
    daemon_loop ctx n st (e :: es) =
      ((daemon_loop ctx n (iteration ctx n st e).1 es).1,
       (iteration ctx n st e).2 ++ (daemon_loop ctx n (iteration ctx n st e).1 es).2) := by
  have h : st.nb_authorised_errors ≠ 0 := by omega
  simp [daemon_loop, hc, h]

/-- The loop does nothing once the budget is 0. -/
theorem daemon_loop_exited (ctx : server_context) (n : Nat) (st : loop_state)
    (es : List iteration_env) (hb : st.nb_authorised_errors = 0) :
    daemon_loop ctx n st es = (st, []) := by
  cases es with
  | nil => rfl
  | cons e es => simp [daemon_loop, hb]

/-! ## The loop over a list of outcomes -/

/-- Counting accepted connections, one outcome at a time. -/
theorem connections_cons (o : outcome) (outs : List outcome) :
    connections (o :: outs) = (if o = outcome.denial then 0 else 1) + connections outs := by
  unfold connections
  rw [List.countP_cons]
  cases o <;> simp <;> omega

/-- Counting failures, one outcome at a time. -/
theorem failures_cons (o : outcome) (outs : List outcome) :
    failures (o :: outs) = (if o.is_failure then 1 else 0) + failures outs := by
  unfold failures
  rw [List.countP_cons]
  cases o <;> simp [outcome.is_failure] <;> omega

/-- The offsets used by the loop, from any state: the `i`-th iteration uses the counter value
on entry plus the number of connections accepted so far, modulo `nb_cnx`. -/
theorem daemon_loop_offsets (ctx : server_context) (n : Nat) (hn : 0 < n) :
    ∀ (outs : List outcome) (st : loop_state), st.crashed = false →
      st.count + outs.length < UINT_RANGE →
      ∀ (i v : Nat), (offsets (daemon_loop ctx n st (outs.map outcome.env)).2)[i]? = some v →
        v = (st.count + connections (outs.take i)) % n := by
  intro outs
  induction outs with
  | nil => intro st _ _ i v h; simp [daemon_loop, offsets] at h
  | cons o os ih =>
    intro st hc hlen i v h
    rw [List.map_cons] at h
    by_cases hb : st.nb_authorised_errors = 0
    · rw [daemon_loop_exited ctx n st _ hb] at h
      simp [offsets] at h
    · have hb' : 0 < st.nb_authorised_errors := by omega
      rw [daemon_loop_cons ctx n st _ _ hc hb'] at h
      obtain ⟨hoff, hcr, _⟩ := iteration_outcome ctx n hn st o hb'
      have hlen' : st.count + (os.length + 1) < UINT_RANGE := by
        simpa [List.length_cons] using hlen
      have hcount := iteration_count ctx n hn st o (by omega)
      rw [offsets_append, hoff] at h
      cases i with
      | zero =>
        simp only [List.singleton_append, List.getElem?_cons_zero, Option.some.injEq] at h
        simp [connections, ← h]
      | succ j =>
        simp only [List.singleton_append, List.getElem?_cons_succ] at h
        have hinc : increment st.count = st.count + 1 := by
          unfold increment
          exact Nat.mod_eq_of_lt (by omega)
        have := ih (iteration ctx n st o.env).1 (by rw [hcr, hc])
          (by rw [hcount]; split <;> omega) j v h
        rw [this, hcount, List.take_succ_cons, connections_cons]
        split
        · simp
        · rw [hinc]; congr 1; omega

/-- The budget along the loop, from any state. -/
theorem daemon_loop_budget (ctx : server_context) (n : Nat) (hn : 0 < n) :
    ∀ (outs : List outcome) (st : loop_state), st.crashed = false →
      (daemon_loop ctx n st (outs.map outcome.env)).1.crashed = false ∧
      (offsets (daemon_loop ctx n st (outs.map outcome.env)).2).length ≤ outs.length ∧
      (daemon_loop ctx n st (outs.map outcome.env)).1.nb_authorised_errors +
        failures (outs.take (offsets (daemon_loop ctx n st (outs.map outcome.env)).2).length)
          = st.nb_authorised_errors ∧
      (failures outs < st.nb_authorised_errors →
        (offsets (daemon_loop ctx n st (outs.map outcome.env)).2).length = outs.length) ∧
      (st.nb_authorised_errors ≤ failures outs →
        (daemon_loop ctx n st (outs.map outcome.env)).1.nb_authorised_errors = 0) ∧
      (0 < st.nb_authorised_errors → st.nb_authorised_errors ≤ failures outs →
        0 < (offsets (daemon_loop ctx n st (outs.map outcome.env)).2).length ∧
        failures (outs.take ((offsets (daemon_loop ctx n st (outs.map outcome.env)).2).length - 1))
          + 1 = st.nb_authorised_errors) := by
  intro outs
  induction outs with
  | nil =>
    intro st hc
    simp [daemon_loop, offsets, failures, hc]
    omega
  | cons o os ih =>
    intro st hc
    rw [List.map_cons]
    by_cases hb : st.nb_authorised_errors = 0
    · rw [daemon_loop_exited ctx n st _ hb]
      simp [offsets, failures, hc, hb]
    · have hb' : 0 < st.nb_authorised_errors := by omega
      rw [daemon_loop_cons ctx n st _ _ hc hb']
      obtain ⟨hoff, hcr, hnb⟩ := iteration_outcome ctx n hn st o hb'
      obtain ⟨h1, h2, h3, h4, h5, h6⟩ := ih (iteration ctx n st o.env).1 (by rw [hcr, hc])
      have hf1 : (if o.is_failure = true then 1 else 0) ≤ 1 := by split <;> omega
      simp only [offsets_append, hoff, List.singleton_append, List.length_cons,
        List.take_succ_cons, failures_cons, Nat.add_sub_cancel]
      refine ⟨h1, by omega, by omega, ?_, ?_, ?_⟩
      · intro hlt
        rw [h4 (by omega)]
      · intro hle
        exact h5 (by omega)
      · intro _ hle
        refine ⟨by omega, ?_⟩
        by_cases hz : (iteration ctx n st o.env).1.nb_authorised_errors = 0
        · rw [daemon_loop_exited ctx n _ _ hz]
          simp only [offsets, List.length_nil, List.take_zero]
          simp only [failures, List.countP_nil]
          omega
        · obtain ⟨hk, hf⟩ := h6 (by omega) (by omega)
          obtain ⟨k, hk'⟩ : ∃ k, (offsets (daemon_loop ctx n (iteration ctx n st o.env).1
              (os.map outcome.env)).2).length = k + 1 := ⟨_, (Nat.succ_pred_eq_of_pos hk).symm⟩
          rw [hk'] at hf ⊢
          rw [List.take_succ_cons, failures_cons]
          simp only [Nat.add_sub_cancel] at hf
          omega

/-! ## Runs of `threaded_server` -/

/-- The final state of a run is the state the loop ends in. -/
theorem run_state (ctx : server_context) (n : Nat) (outs : List outcome) :
    (run ctx n outs).1 = (daemon_loop ctx n (initial_state n) (outs.map outcome.env)).1 := by
  simp [run, threaded_server]

/-- The trace of a run: the array allocation, the loop, the clean-up when the loop has exited. -/
theorem run_events (ctx : server_context) (n : Nat) (outs : List outcome) :
    (run ctx n outs).2 =
      [Event.array_malloc n true] ++
        (daemon_loop ctx n (initial_state n) (outs.map outcome.env)).2 ++
        (if (daemon_loop ctx n (initial_state n) (outs.map outcome.env)).1.crashed = false ∧
            (daemon_loop ctx n (initial_state n) (outs.map outcome.env)).1.nb_authorised_errors = 0
          then [Event.pthread_attr_destroy, Event.array_free] else []) := by
  simp [run, threaded_server]

/-- The offsets of a run are those of its loop. -/
theorem run_offsets (ctx : server_context) (n : Nat) (outs : List outcome) :
    offsets (run ctx n outs).2 =
      offsets (daemon_loop ctx n (initial_state n) (outs.map outcome.env)).2 := by
  rw [run_events, offsets_append, offsets_append]
  split <;> simp [offsets]

/-- With every spawn succeeding, the accepted connections are the non-NULL accept results. -/
theorem connections_accept_outcome (accepts : List (Option Handle)) :
    connections (accepts.map accept_outcome) = accepted accepts := by
  induction accepts with
  | nil => rfl
  | cons a as ih =>
    rw [List.map_cons, connections_cons, ih]
    unfold accepted
    rw [List.countP_cons]
    cases a
    · simp [accept_outcome]
    · simp [accept_outcome]
      omega

/-- With every spawn succeeding, the failures are the NULL accept results. -/
theorem failures_accept_outcome (accepts : List (Option Handle)) :
    failures (accepts.map accept_outcome) = accepts.countP Option.isNone := by
  induction accepts with
  | nil => rfl
  | cons a as ih =>
    rw [List.map_cons, failures_cons, ih, List.countP_cons]
    cases a
    · simp [accept_outcome, outcome.is_failure]
      omega
    · simp [accept_outcome, outcome.is_failure]

/-- C1. In `threaded_server`, for every `nb_cnx > 0` and every list of accept results (NULL or a
connection) shorter than `2 ^ 32` in which every spawn succeeds, the slot offset used by the
`i`-th iteration is the number of connections accepted before it, modulo `nb_cnx` (so a denial
is retried at the same offset); and with fewer than 50 denials every listed iteration runs. -/
theorem threaded_server_offsets (ctx : server_context) (nb_cnx : Nat)
    (accepts : List (Option Handle)) (h0 : 0 < nb_cnx) (hlen : accepts.length < 2 ^ 32) :
    (∀ (i : Nat) (hi : i < (offsets (run ctx nb_cnx (accepts.map accept_outcome)).2).length),
      (offsets (run ctx nb_cnx (accepts.map accept_outcome)).2)[i]
        = accepted (accepts.take i) % nb_cnx) ∧
    (accepts.countP Option.isNone < 50 →
      (offsets (run ctx nb_cnx (accepts.map accept_outcome)).2).length = accepts.length) := by
  constructor
  · intro i hi
    have h := daemon_loop_offsets ctx nb_cnx h0 (accepts.map accept_outcome)
      (initial_state nb_cnx) rfl
      (by
        show 0 + (accepts.map accept_outcome).length < UINT_RANGE
        rw [List.length_map]
        unfold UINT_RANGE
        omega)
      i _ (by rw [← run_offsets]; exact List.getElem?_eq_getElem hi)
    rw [h, ← List.map_take, connections_accept_outcome]
    show (0 + _) % nb_cnx = _
    rw [Nat.zero_add]
  · intro hden
    have h := (daemon_loop_budget ctx nb_cnx h0 (accepts.map accept_outcome)
      (initial_state nb_cnx) rfl).2.2.2.1
    rw [failures_accept_outcome, List.length_map] at h
    rw [run_offsets]
    exact h hden

/-- C1, on the run of the specification: three slots and the accept results
deny, accept, accept, deny, accept give the offsets 0, 0, 1, 2, 2. -/
theorem threaded_server_offsets_witness :
    (0 < 3 ∧ [none, some 11, some 12, none, some 13].length < 2 ^ 32) ∧
    ((∀ (i : Nat) (hi : i < (offsets (run { log := 0 } 3
          ([none, some 11, some 12, none, some 13].map accept_outcome)).2).length),
        (offsets (run { log := 0 } 3
          ([none, some 11, some 12, none, some 13].map accept_outcome)).2)[i]
          = accepted ([none, some 11, some 12, none, some 13].take i) % 3) ∧
      (([none, some 11, some 12, none, some 13] : List (Option Handle)).countP Option.isNone < 50 →
        (offsets (run { log := 0 } 3
          ([none, some 11, some 12, none, some 13].map accept_outcome)).2).length
          = [none, some 11, some 12, none, some 13].length)) ∧
    offsets (run { log := 0 } 3 ([none, some 11, some 12, none, some 13].map accept_outcome)).2
      = [0, 0, 1, 2, 2] :=
  ⟨⟨by decide, by decide⟩,
    threaded_server_offsets { log := 0 } 3 [none, some 11, some 12, none, some 13]
      (by decide) (by decide),
    by decide⟩

/-- A success at the end of the list of outcomes leaves the final budget as it was. -/
theorem daemon_loop_success_last (ctx : server_context) (n : Nat) (hn : 0 < n) (h : Handle) :
    ∀ (outs : List outcome) (st : loop_state), st.crashed = false →
      (daemon_loop ctx n st ((outs ++ [outcome.success h]).map outcome.env)).1.nb_authorised_errors
        = (daemon_loop ctx n st (outs.map outcome.env)).1.nb_authorised_errors := by
  intro outs
  induction outs with
  | nil =>
    intro st hc
    by_cases hb : st.nb_authorised_errors = 0
    · rw [daemon_loop_exited ctx n st _ hb, daemon_loop_exited ctx n st _ hb]
    · have hb' : 0 < st.nb_authorised_errors := by omega
      rw [List.nil_append, List.map_cons, List.map_nil, daemon_loop_cons ctx n st _ _ hc hb']
      have := (iteration_outcome ctx n hn st (outcome.success h) hb').2.2
      simpa [daemon_loop, outcome.is_failure] using this
  | cons o os ih =>
    intro st hc
    by_cases hb : st.nb_authorised_errors = 0
    · rw [daemon_loop_exited ctx n st _ hb, daemon_loop_exited ctx n st _ hb]
    · have hb' : 0 < st.nb_authorised_errors := by omega
      rw [List.cons_append, List.map_cons, List.map_cons,
        daemon_loop_cons ctx n st _ _ hc hb', daemon_loop_cons ctx n st _ _ hc hb']
      exact ih _ (by rw [(iteration_outcome ctx n hn st o hb').2.1, hc])

/-- C2. In `threaded_server`, for every list of iteration outcomes (denial, spawn failure,
success): the budget left plus the number of denials and spawn failures among the iterations run
is 50; with fewer than 50 failures every listed iteration runs and the loop has not exited; with
50 or more the loop exits (budget 0, clean-up reached) at the iteration that brings the number
of failures from 49 to 50; and one more success at the end never changes the budget. -/
theorem threaded_server_budget (ctx : server_context) (nb_cnx : Nat) (outs : List outcome)
    (h0 : 0 < nb_cnx) :
    (run ctx nb_cnx outs).1.nb_authorised_errors
      + failures (outs.take (attempts (run ctx nb_cnx outs).2)) = 50 ∧
    (failures outs < 50 →
      attempts (run ctx nb_cnx outs).2 = outs.length ∧
      (run ctx nb_cnx outs).1.nb_authorised_errors ≠ 0) ∧
    (50 ≤ failures outs →
      (run ctx nb_cnx outs).1.nb_authorised_errors = 0 ∧
      0 < attempts (run ctx nb_cnx outs).2 ∧
      failures (outs.take (attempts (run ctx nb_cnx outs).2 - 1)) = 49 ∧
      failures (outs.take (attempts (run ctx nb_cnx outs).2)) = 50 ∧
      Event.array_free ∈ (run ctx nb_cnx outs).2) ∧
    (∀ h : Handle,
      (run ctx nb_cnx (outs ++ [outcome.success h])).1.nb_authorised_errors
        = (run ctx nb_cnx outs).1.nb_authorised_errors) := by
  obtain ⟨h1, _, h3, h4, h5, h6⟩ :=
    daemon_loop_budget ctx nb_cnx h0 outs (initial_state nb_cnx) rfl
  have hinit : (initial_state nb_cnx).nb_authorised_errors = 50 := rfl
  rw [hinit] at h3 h4 h5 h6
  unfold attempts
  rw [run_state, run_offsets]
  refine ⟨h3, ?_, ?_, ?_⟩
  · intro hlt
    have hk := h4 hlt
    rw [hk, List.take_length] at h3
    exact ⟨hk, by omega⟩
  · intro hle
    obtain ⟨hk, hf⟩ := h6 (by omega) hle
    have hz := h5 hle
    refine ⟨hz, hk, by omega, by omega, ?_⟩
    rw [run_events, if_pos ⟨h1, hz⟩]
    simp
  · intro h
    rw [run_state]
    exact daemon_loop_success_last ctx nb_cnx h0 h outs (initial_state nb_cnx) rfl

/-- C2, on a run with one slot: a success, fifty denials, then a success that is never
reached.  The loop exits after 51 iterations with the budget at 0. -/
theorem threaded_server_budget_witness :
    0 < 1 ∧
    (run { log := 0 } 1
      (outcome.success 1 ::
        (List.replicate 50 outcome.denial ++ [outcome.success 2]))).1.nb_authorised_errors = 0 ∧
    attempts (run { log := 0 } 1
      (outcome.success 1 :: (List.replicate 50 outcome.denial ++ [outcome.success 2]))).2 = 51 :=
  ⟨by decide,
    ((threaded_server_budget { log := 0 } 1
      (outcome.success 1 :: (List.replicate 50 outcome.denial ++ [outcome.success 2]))
      (by decide)).2.2.1 (by decide)).1,
    by decide⟩

/-! ## Spawn failures -/

/-- The offset an iteration uses is the counter on entry modulo `nb_cnx`, whatever the
outcome. -/
theorem iteration_offsets (ctx : server_context) (n : Nat) (hn : 0 < n) (st : loop_state)
    (o : outcome) : offsets (iteration ctx n st o.env).2 = [st.count % n] := by
  cases o with
  | denial => rw [iteration_denial ctx n hn]; rfl
  | spawn_failure h => rw [iteration_spawn_failure ctx n hn]; rfl
  | success h => rw [iteration_success ctx n hn]; rfl

/-- C3 as stated fails: from the initial state with three slots, an iteration whose accept
succeeds and whose spawn fails leaves the counter at 1, not at 0 as before the iteration, and
the iteration after it uses offset 1, not offset 0 again. -/
theorem spawn_failure_keeps_increment :
    (initial_state 3).count = 0 ∧
    (iteration { log := 0 } 3 (initial_state 3) (outcome.spawn_failure 7).env).1.count = 1 ∧
    offsets (run { log := 0 } 3 [outcome.spawn_failure 7, outcome.success 8]).2 = [0, 1] := by
  decide

/-- C3, amended. An iteration whose accept succeeds and whose spawn fails, entered with a
positive budget: the accepted connection is released and the context freed, the budget goes
down by one, and the counter keeps its increment (`count` counts accepted connections), so
the next iteration, whatever its outcome, uses the offset of the incremented counter. -/
theorem spawn_failure_iteration (ctx : server_context) (nb_cnx : Nat) (st : loop_state)
    (new_client : Handle) (h0 : 0 < nb_cnx) (hb : 0 < st.nb_authorised_errors) :
    (iteration ctx nb_cnx st (outcome.spawn_failure new_client).env).1.count
      = (st.count + 1) % 2 ^ 32 ∧
    (iteration ctx nb_cnx st (outcome.spawn_failure new_client).env).1.nb_authorised_errors
      = st.nb_authorised_errors - 1 ∧
    (iteration ctx nb_cnx st (outcome.spawn_failure new_client).env).2 =
      [Event.context_malloc (st.count % nb_cnx) (some st.blocks),
       Event.ipc_accept_connection (some new_client),
       Event.pthread_create st.blocks { socket := some new_client, log := ctx.log } false,
       Event.ipc_socket_free new_client ctx.log,
       Event.context_free st.blocks] ∧
    (∀ next : outcome,
      offsets (iteration ctx nb_cnx
        (iteration ctx nb_cnx st (outcome.spawn_failure new_client).env).1 next.env).2
        = [((st.count + 1) % 2 ^ 32) % nb_cnx]) := by
  have hcount : (iteration ctx nb_cnx st (outcome.spawn_failure new_client).env).1.count
      = (st.count + 1) % 2 ^ 32 := by
    rw [iteration_spawn_failure ctx nb_cnx h0]
    rfl
  refine ⟨hcount, ?_, ?_, ?_⟩
  · rw [iteration_spawn_failure ctx nb_cnx h0]
    exact decrement_pos _ hb
  · rw [iteration_spawn_failure ctx nb_cnx h0]
  · intro next
    rw [iteration_offsets ctx nb_cnx h0, hcount]

/-- C3 amended, at the initial state with three slots. -/
theorem spawn_failure_iteration_witness :
    (0 < 3 ∧ 0 < (initial_state 3).nb_authorised_errors) ∧
    (iteration { log := 0 } 3 (initial_state 3) (outcome.spawn_failure 7).env).1.count
      = ((initial_state 3).count + 1) % 2 ^ 32 ∧
    (iteration { log := 0 } 3 (initial_state 3)
      (outcome.spawn_failure 7).env).1.nb_authorised_errors = 49 :=
  ⟨⟨by decide, by decide⟩,
    (spawn_failure_iteration { log := 0 } 3 (initial_state 3) 7 (by decide) (by decide)).1,
    (spawn_failure_iteration { log := 0 } 3 (initial_state 3) 7 (by decide) (by decide)).2.1⟩

/-! ## Populate, then spawn -/

/-- Within one iteration, a `pthread_create` call comes right after an accept that returned a
connection, and passes a context holding that connection and the server's sink. -/
theorem iteration_spawn_populated (ctx : server_context) (n : Nat) (st : loop_state)
    (e : iteration_env) (block : Nat) (arg : thread_context) (ok : Bool)
    (h : Event.pthread_create block arg ok ∈ (iteration ctx n st e).2) :
    ∃ new_client : Handle, arg = { socket := some new_client, log := ctx.log } ∧
      [Event.ipc_accept_connection (some new_client), Event.pthread_create block arg ok]
        <:+: (iteration ctx n st e).2 := by
  obtain ⟨malloc_ok, new_client, spawn_ok⟩ := e
  by_cases hn : n = 0
  · simp [iteration, hn] at h
  · cases malloc_ok with
    | false => simp [iteration, hn, make_thread_context] at h
    | true =>
      cases new_client with
      | none => simp [iteration, hn, make_thread_context, free_thread_context] at h
      | some c =>
        cases spawn_ok with
        | true =>
          simp only [iteration, hn, make_thread_context, if_true, if_false, List.mem_cons,
            Event.pthread_create.injEq, List.mem_nil_iff, or_false, false_or, reduceCtorEq,
            List.mem_singleton] at h ⊢
          obtain ⟨hb, ha, ho⟩ := h
          subst hb ha ho
          exact ⟨c, rfl, [_], [], rfl⟩
        | false =>
          simp only [iteration, hn, make_thread_context, free_thread_context, if_true, if_false,
            List.mem_cons, List.mem_append, Event.pthread_create.injEq, List.mem_nil_iff,
            or_false, false_or, reduceCtorEq, List.mem_singleton, Bool.false_eq_true,
            List.cons_append, List.nil_append] at h ⊢
          obtain ⟨hb, ha, ho⟩ := h
          subst hb ha ho
          exact ⟨c, rfl, [_], [_, _], rfl⟩

/-- A contiguous block of a trace is one of the trace extended on the right. -/
theorem contiguous_append_right {l a : List Event} (b : List Event) (h : l <:+: a) :
    l <:+: a ++ b := by
  obtain ⟨s, t, rfl⟩ := h
  exact ⟨s, t ++ b, by simp⟩

/-- A contiguous block of a trace is one of the trace extended on the left. -/
theorem contiguous_append_left {l b : List Event} (a : List Event) (h : l <:+: b) :
    l <:+: a ++ b := by
  obtain ⟨s, t, rfl⟩ := h
  exact ⟨a ++ s, t, by simp⟩

/-- The same along the loop, from any state and in any environment. -/
theorem daemon_loop_spawn_populated (ctx : server_context) (n : Nat) (block : Nat)
    (arg : thread_context) (ok : Bool) :
    ∀ (es : List iteration_env) (st : loop_state),
      Event.pthread_create block arg ok ∈ (daemon_loop ctx n st es).2 →
      ∃ new_client : Handle, arg = { socket := some new_client, log := ctx.log } ∧
        [Event.ipc_accept_connection (some new_client), Event.pthread_create block arg ok]
          <:+: (daemon_loop ctx n st es).2 := by
  intro es
  induction es with
  | nil => intro st h; simp [daemon_loop] at h
  | cons e es ih =>
    intro st h
    by_cases hstop : st.crashed = true ∨ st.nb_authorised_errors = 0
    · simp [daemon_loop, hstop] at h
    · simp only [daemon_loop, hstop, if_false, List.mem_append] at h ⊢
      rcases h with h | h
      · obtain ⟨c, hc, hin⟩ := iteration_spawn_populated ctx n st e block arg ok h
        exact ⟨c, hc, contiguous_append_right _ hin⟩
      · obtain ⟨c, hc, hin⟩ := ih _ h
        exact ⟨c, hc, contiguous_append_left _ hin⟩

/-- C4. In `threaded_server`, in every environment, every `pthread_create` call passes a context
whose connection handle is present and is the one returned by the `ipc_accept_connection` call
just before it, and whose logging sink is the server's. -/
theorem spawn_after_populate (ctx : server_context) (nb_cnx : Nat) (env : environment)
    (block : Nat) (arg : thread_context) (ok : Bool)
    (h : Event.pthread_create block arg ok ∈ (threaded_server ctx nb_cnx env).2) :
    ∃ new_client : Handle, arg = { socket := some new_client, log := ctx.log } ∧
      [Event.ipc_accept_connection (some new_client), Event.pthread_create block arg ok]
        <:+: (threaded_server ctx nb_cnx env).2 := by
  obtain ⟨array_ok, es⟩ := env
  cases array_ok with
  | false => simp [threaded_server] at h
  | true =>
    simp only [threaded_server, if_true, List.mem_append, List.mem_singleton,
      reduceCtorEq, false_or] at h ⊢
    rcases h with h | h
    · obtain ⟨c, hc, hin⟩ := daemon_loop_spawn_populated ctx nb_cnx block arg ok es _ h
      exact ⟨c, hc, contiguous_append_right _ (contiguous_append_left _ hin)⟩
    · split at h <;> simp at h

/-- C4, on a run with two slots in which one connection is accepted and its worker spawned. -/
theorem spawn_after_populate_witness :
    Event.pthread_create 0 { socket := some 7, log := 5 } true ∈
      (threaded_server { log := 5 } 2
        { array_malloc_ok := true,
          iterations := [{ malloc_ok := true, new_client := some 7, spawn_ok := true }] }).2 ∧
    ∃ new_client : Handle,
      ({ socket := some 7, log := 5 } : thread_context)
        = { socket := some new_client, log := (5 : LogRef) } ∧
      [Event.ipc_accept_connection (some new_client),
        Event.pthread_create 0 { socket := some 7, log := 5 } true]
        <:+: (threaded_server { log := 5 } 2
          { array_malloc_ok := true,
            iterations := [{ malloc_ok := true, new_client := some 7, spawn_ok := true }] }).2 :=
  ⟨by decide,
    spawn_after_populate { log := 5 } 2
      { array_malloc_ok := true,
        iterations := [{ malloc_ok := true, new_client := some 7, spawn_ok := true }] }
      0 { socket := some 7, log := 5 } true (by decide)⟩

/-! ## Allocation of contexts -/

/-- What one iteration allocates, frees and spawns. -/
theorem iteration_contexts (ctx : server_context) (n : Nat) (hn : 0 < n) (st : loop_state)
    (o : outcome) :
    arrays_allocated (iteration ctx n st o.env).2 = 0 ∧
    contexts_allocated (iteration ctx n st o.env).2 = 1 ∧
    contexts_freed (iteration ctx n st o.env).2 = (if o.is_failure then 1 else 0) ∧
    workers_spawned (iteration ctx n st o.env).2 = (if o.is_failure then 0 else 1) := by
  cases o with
  | denial => rw [iteration_denial ctx n hn]; exact ⟨rfl, rfl, rfl, rfl⟩
  | spawn_failure h => rw [iteration_spawn_failure ctx n hn]; exact ⟨rfl, rfl, rfl, rfl⟩
  | success h => rw [iteration_success ctx n hn]; exact ⟨rfl, rfl, rfl, rfl⟩

/-- Array allocations of a concatenated trace. -/
theorem arrays_allocated_append (a b : List Event) :
    arrays_allocated (a ++ b) = arrays_allocated a + arrays_allocated b := by
  simp [arrays_allocated, List.countP_append]

/-- Context allocations of a concatenated trace. -/
theorem contexts_allocated_append (a b : List Event) :
    contexts_allocated (a ++ b) = contexts_allocated a + contexts_allocated b := by
  simp [contexts_allocated, List.countP_append]

/-- Context frees of a concatenated trace. -/
theorem contexts_freed_append (a b : List Event) :
    contexts_freed (a ++ b) = contexts_freed a + contexts_freed b := by
  simp [contexts_freed, List.countP_append]

/-- Workers spawned in a concatenated trace. -/
theorem workers_spawned_append (a b : List Event) :
    workers_spawned (a ++ b) = workers_spawned a + workers_spawned b := by
  simp [workers_spawned, List.countP_append]

/-- Iterations started in a concatenated trace. -/
theorem attempts_append (a b : List Event) : attempts (a ++ b) = attempts a + attempts b := by
  simp [attempts, offsets_append]

/-- What the loop allocates, frees and spawns, from any state. -/
theorem daemon_loop_contexts (ctx : server_context) (n : Nat) (hn : 0 < n) :
    ∀ (outs : List outcome) (st : loop_state), st.crashed = false →
      arrays_allocated (daemon_loop ctx n st (outs.map outcome.env)).2 = 0 ∧
      contexts_allocated (daemon_loop ctx n st (outs.map outcome.env)).2
        = attempts (daemon_loop ctx n st (outs.map outcome.env)).2 ∧
      contexts_freed (daemon_loop ctx n st (outs.map outcome.env)).2
        = failures (outs.take (attempts (daemon_loop ctx n st (outs.map outcome.env)).2)) ∧
      contexts_freed (daemon_loop ctx n st (outs.map outcome.env)).2
        + workers_spawned (daemon_loop ctx n st (outs.map outcome.env)).2
        = attempts (daemon_loop ctx n st (outs.map outcome.env)).2 := by
  intro outs
  induction outs with
  | nil => intro st _; exact ⟨rfl, rfl, rfl, rfl⟩
  | cons o os ih =>
    intro st hc
    rw [List.map_cons]
    by_cases hb : st.nb_authorised_errors = 0
    · rw [daemon_loop_exited ctx n st _ hb]
      exact ⟨rfl, rfl, rfl, rfl⟩
    · have hb' : 0 < st.nb_authorised_errors := by omega
      rw [daemon_loop_cons ctx n st _ _ hc hb']
      obtain ⟨hoff, hcr, _⟩ := iteration_outcome ctx n hn st o hb'
      obtain ⟨i1, i2, i3, i4⟩ := iteration_contexts ctx n hn st o
      obtain ⟨h1, h2, h3, h4⟩ := ih (iteration ctx n st o.env).1 (by rw [hcr, hc])
      have hatt : attempts (iteration ctx n st o.env).2 = 1 := by
        unfold attempts
        rw [hoff]
        rfl
      have htake : failures ((o :: os).take (1 + attempts (daemon_loop ctx n
          (iteration ctx n st o.env).1 (os.map outcome.env)).2))
          = (if o.is_failure then 1 else 0) + failures (os.take (attempts (daemon_loop ctx n
              (iteration ctx n st o.env).1 (os.map outcome.env)).2)) := by
        rw [Nat.add_comm 1, List.take_succ_cons, failures_cons]
      rw [arrays_allocated_append, contexts_allocated_append, contexts_freed_append,
        workers_spawned_append, attempts_append, hatt, htake, i1, i2, i3, i4]
      cases o.is_failure <;> simp <;> omega

/-- C5 as stated fails: with one slot, the first iteration allocates a context, and after two
successful iterations two contexts are allocated and none is freed, more than the one slot. -/
theorem contexts_exceed_slots :
    contexts_allocated (iteration { log := 0 } 1 (initial_state 1) (outcome.success 1).env).2 = 1 ∧
    contexts_allocated (run { log := 0 } 1 [outcome.success 1, outcome.success 2]).2 = 2 ∧
    contexts_freed (run { log := 0 } 1 [outcome.success 1, outcome.success 2]).2 = 0 ∧
    ¬ (contexts_allocated (run { log := 0 } 1 [outcome.success 1, outcome.success 2]).2
        - contexts_freed (run { log := 0 } 1 [outcome.success 1, outcome.success 2]).2 ≤ 1) := by
  decide

/-- Blocks allocated in a concatenated trace. -/
theorem allocated_blocks_append (a b : List Event) :
    allocated_blocks (a ++ b) = allocated_blocks a ++ allocated_blocks b := by
  induction a with
  | nil => rfl
  | cons x xs ih =>
    cases x with
    | context_malloc offset block => cases block <;> simp [allocated_blocks, ih]
    | _ => simp [allocated_blocks, ih]

/-- Blocks freed in a concatenated trace. -/
theorem freed_blocks_append (a b : List Event) :
    freed_blocks (a ++ b) = freed_blocks a ++ freed_blocks b := by
  induction a with
  | nil => rfl
  | cons x xs ih => cases x <;> simp [freed_blocks, ih]

/-- The last allocation of a concatenated trace. -/
theorem last_allocated_append (a b : List Event) :
    ∀ current : Option Nat,
      last_allocated current (a ++ b) = last_allocated (last_allocated current a) b := by
  induction a with
  | nil => intro current; rfl
  | cons x xs ih => intro current; cases x <;> simp [last_allocated, ih]

/-- When every `free` of two traces is of the block allocated last, so is every `free` of their
concatenation. -/
theorem frees_last_allocated_append (current : Option Nat) (a b : List Event)
    (ha : ∀ (pre post : List Event) (block : Nat),
      a = pre ++ Event.context_free block :: post → last_allocated current pre = some block)
    (hb : ∀ (pre post : List Event) (block : Nat),
      b = pre ++ Event.context_free block :: post →
        last_allocated (last_allocated current a) pre = some block) :
    ∀ (pre post : List Event) (block : Nat),
      a ++ b = pre ++ Event.context_free block :: post →
        last_allocated current pre = some block := by
  intro pre post block h
  rcases List.append_eq_append_iff.1 h with ⟨m, hpre, hrest⟩ | ⟨m, hpre, hrest⟩
  · rw [hpre, last_allocated_append]
    exact hb m post block hrest
  · cases m with
    | nil =>
      rw [List.append_nil] at hpre
      rw [List.nil_append] at hrest
      have := hb [] post block hrest.symm
      rw [hpre] at this
      exact this
    | cons x m =>
      rw [List.cons_append] at hrest
      obtain ⟨hx, _⟩ := List.cons.inj hrest
      rw [← hx] at hpre
      exact ha pre m block hpre

/-- The blocks of one iteration: it allocates the next block, frees that block exactly on a
failure, and the block after it is the next one. -/
theorem iteration_blocks (ctx : server_context) (n : Nat) (hn : 0 < n) (st : loop_state)
    (o : outcome) :
    allocated_blocks (iteration ctx n st o.env).2 = [st.blocks] ∧
    freed_blocks (iteration ctx n st o.env).2 = (if o.is_failure then [st.blocks] else []) ∧
    (iteration ctx n st o.env).1.blocks = st.blocks + 1 ∧
    (∀ current : Option Nat,
      last_allocated current (iteration ctx n st o.env).2 = some st.blocks) := by
  cases o with
  | denial => rw [iteration_denial ctx n hn]; exact ⟨rfl, rfl, rfl, fun _ => rfl⟩
  | spawn_failure h => rw [iteration_spawn_failure ctx n hn]; exact ⟨rfl, rfl, rfl, fun _ => rfl⟩
  | success h => rw [iteration_success ctx n hn]; exact ⟨rfl, rfl, rfl, fun _ => rfl⟩

/-- Every `free` of one iteration is of the block that iteration allocated. -/
theorem iteration_frees (ctx : server_context) (n : Nat) (hn : 0 < n) (st : loop_state)
    (o : outcome) (current : Option Nat) (pre post : List Event) (block : Nat)
    (h : (iteration ctx n st o.env).2 = pre ++ Event.context_free block :: post) :
    last_allocated current pre = some block := by
  cases o with
  | denial =>
    rw [iteration_denial ctx n hn] at h
    rcases pre with _ | ⟨p1, _ | ⟨p2, _ | ⟨p3, pre⟩⟩⟩ <;> simp at h
    obtain ⟨h1, h2, h3, _⟩ := h
    rw [← h1, ← h2, ← h3]
    rfl
  | spawn_failure c =>
    rw [iteration_spawn_failure ctx n hn] at h
    rcases pre with _ | ⟨p1, _ | ⟨p2, _ | ⟨p3, _ | ⟨p4, _ | ⟨p5, pre⟩⟩⟩⟩⟩ <;> simp at h
    obtain ⟨h1, h2, h3, h4, h5, _⟩ := h
    rw [← h1, ← h2, ← h3, ← h4, ← h5]
    rfl
  | success c =>
    rw [iteration_success ctx n hn] at h
    rcases pre with _ | ⟨p1, _ | ⟨p2, _ | ⟨p3, pre⟩⟩⟩ <;> simp at h

/-- The blocks of the loop, from any state: the iterations allocate consecutive blocks, and the
blocks freed are those of the iterations that fail. -/
theorem daemon_loop_blocks (ctx : server_context) (n : Nat) (hn : 0 < n) :
    ∀ (outs : List outcome) (st : loop_state), st.crashed = false →
      allocated_blocks (daemon_loop ctx n st (outs.map outcome.env)).2
        = List.range' st.blocks (attempts (daemon_loop ctx n st (outs.map outcome.env)).2) ∧
      freed_blocks (daemon_loop ctx n st (outs.map outcome.env)).2
        = ((List.enumFrom st.blocks
            (outs.take (attempts (daemon_loop ctx n st (outs.map outcome.env)).2))).filter
              (fun p => p.2.is_failure)).map Prod.fst := by
  intro outs
  induction outs with
  | nil => intro st _; exact ⟨rfl, rfl⟩
  | cons o os ih =>
    intro st hc
    rw [List.map_cons]
    by_cases hb : st.nb_authorised_errors = 0
    · rw [daemon_loop_exited ctx n st _ hb]
      exact ⟨rfl, rfl⟩
    · have hb' : 0 < st.nb_authorised_errors := by omega
      rw [daemon_loop_cons ctx n st _ _ hc hb']
      obtain ⟨hoff, hcr, _⟩ := iteration_outcome ctx n hn st o hb'
      obtain ⟨i1, i2, i3, _⟩ := iteration_blocks ctx n hn st o
      obtain ⟨h1, h2⟩ := ih (iteration ctx n st o.env).1 (by rw [hcr, hc])
      have hatt : attempts (iteration ctx n st o.env).2 = 1 := by
        unfold attempts
        rw [hoff]
        rfl
      rw [allocated_blocks_append, freed_blocks_append, attempts_append, hatt, i1, i2, h1, h2,
        i3, Nat.add_comm 1, List.take_succ_cons, List.enumFrom_cons, List.range'_succ]
      refine ⟨rfl, ?_⟩
      cases hf : o.is_failure <;> simp [List.filter_cons, hf]

/-- Every `free` of the loop is of the block allocated last: the one of the same iteration. -/
theorem daemon_loop_frees (ctx : server_context) (n : Nat) (hn : 0 < n) :
    ∀ (outs : List outcome) (st : loop_state) (current : Option Nat), st.crashed = false →
      ∀ (pre post : List Event) (block : Nat),
        (daemon_loop ctx n st (outs.map outcome.env)).2 = pre ++ Event.context_free block :: post →
          last_allocated current pre = some block := by
  intro outs
  induction outs with
  | nil =>
    intro st current _ pre post block h
    cases pre <;> simp [daemon_loop] at h
  | cons o os ih =>
    intro st current hc
    rw [List.map_cons]
    by_cases hb : st.nb_authorised_errors = 0
    · rw [daemon_loop_exited ctx n st _ hb]
      intro pre post block h
      cases pre <;> simp at h
    · have hb' : 0 < st.nb_authorised_errors := by omega
      rw [daemon_loop_cons ctx n st _ _ hc hb']
      obtain ⟨_, hcr, _⟩ := iteration_outcome ctx n hn st o hb'
      exact frees_last_allocated_append current _ _
        (iteration_frees ctx n hn st o current)
        (ih (iteration ctx n st o.env).1 _ (by rw [hcr, hc]))

/-- The iterations started in a run are those of its loop. -/
theorem run_attempts (ctx : server_context) (n : Nat) (outs : List outcome) :
    attempts (run ctx n outs).2 =
      attempts (daemon_loop ctx n (initial_state n) (outs.map outcome.env)).2 := by
  unfold attempts
  rw [run_offsets]

/-- The clean-up after the loop allocates and frees no context. -/
theorem cleanup_blocks (c : Prop) [Decidable c] :
    allocated_blocks (if c then [Event.pthread_attr_destroy, Event.array_free] else []) = [] ∧
    freed_blocks (if c then [Event.pthread_attr_destroy, Event.array_free] else []) = [] ∧
    ∀ (current : Option Nat) (pre post : List Event) (block : Nat),
      (if c then [Event.pthread_attr_destroy, Event.array_free] else [])
        = pre ++ Event.context_free block :: post → last_allocated current pre = some block := by
  split
  · refine ⟨rfl, rfl, ?_⟩
    intro current pre post block h
    rcases pre with _ | ⟨p1, _ | ⟨p2, pre⟩⟩ <;> simp at h
  · refine ⟨rfl, rfl, ?_⟩
    intro current pre post block h
    cases pre <;> simp at h

/-- C5, amended. In a run of `threaded_server` with `nb_cnx > 0`, the array of `nb_cnx` context
pointers is allocated once, before the loop; every iteration allocates one context, in a block
never handed out before (iteration `i` gets block `i`); the blocks freed are those of the
iterations in which the accept is denied or the spawn fails, each freed once, and each `free`
is of the block allocated last, so it comes in the iteration that allocated the block; hence
the contexts allocated are those freed plus one per worker spawned. -/
theorem contexts_per_iteration (ctx : server_context) (nb_cnx : Nat) (outs : List outcome)
    (h0 : 0 < nb_cnx) :
    (run ctx nb_cnx outs).2.head? = some (Event.array_malloc nb_cnx true) ∧
    arrays_allocated (run ctx nb_cnx outs).2 = 1 ∧
    contexts_allocated (run ctx nb_cnx outs).2 = attempts (run ctx nb_cnx outs).2 ∧
    contexts_freed (run ctx nb_cnx outs).2
      = failures (outs.take (attempts (run ctx nb_cnx outs).2)) ∧
    contexts_allocated (run ctx nb_cnx outs).2
      = contexts_freed (run ctx nb_cnx outs).2 + workers_spawned (run ctx nb_cnx outs).2 ∧
    allocated_blocks (run ctx nb_cnx outs).2 = List.range (attempts (run ctx nb_cnx outs).2) ∧
    freed_blocks (run ctx nb_cnx outs).2
      = (((outs.take (attempts (run ctx nb_cnx outs).2)).enum.filter
          (fun p => p.2.is_failure)).map Prod.fst) ∧
    (∀ (pre post : List Event) (block : Nat),
      (run ctx nb_cnx outs).2 = pre ++ Event.context_free block :: post →
        last_allocated none pre = some block) := by
  obtain ⟨h1, h2, h3, h4⟩ := daemon_loop_contexts ctx nb_cnx h0 outs (initial_state nb_cnx) rfl
  obtain ⟨b1, b2⟩ := daemon_loop_blocks ctx nb_cnx h0 outs (initial_state nb_cnx) rfl
  have b3 := daemon_loop_frees ctx nb_cnx h0 outs (initial_state nb_cnx)
  have htail : ∀ c : Prop, [Decidable c] →
      arrays_allocated (if c then [Event.pthread_attr_destroy, Event.array_free] else []) = 0 ∧
      contexts_allocated (if c then [Event.pthread_attr_destroy, Event.array_free] else []) = 0 ∧
      contexts_freed (if c then [Event.pthread_attr_destroy, Event.array_free] else []) = 0 ∧
      workers_spawned (if c then [Event.pthread_attr_destroy, Event.array_free] else []) = 0 ∧
      attempts (if c then [Event.pthread_attr_destroy, Event.array_free] else []) = 0 := by
    intro c _
    split <;> exact ⟨rfl, rfl, rfl, rfl, rfl⟩
  rw [run_attempts, run_events]
  obtain ⟨t1, t2, t3, t4, t5⟩ := htail
    ((daemon_loop ctx nb_cnx (initial_state nb_cnx) (outs.map outcome.env)).1.crashed = false ∧
      (daemon_loop ctx nb_cnx (initial_state nb_cnx)
        (outs.map outcome.env)).1.nb_authorised_errors = 0)
  obtain ⟨t6, t7, t8⟩ := cleanup_blocks
    ((daemon_loop ctx nb_cnx (initial_state nb_cnx) (outs.map outcome.env)).1.crashed = false ∧
      (daemon_loop ctx nb_cnx (initial_state nb_cnx)
        (outs.map outcome.env)).1.nb_authorised_errors = 0)
  have a1 : arrays_allocated [Event.array_malloc nb_cnx true] = 1 := rfl
  have a2 : contexts_allocated [Event.array_malloc nb_cnx true] = 0 := rfl
  have a3 : contexts_freed [Event.array_malloc nb_cnx true] = 0 := rfl
  have a4 : workers_spawned [Event.array_malloc nb_cnx true] = 0 := rfl
  have a6 : allocated_blocks [Event.array_malloc nb_cnx true] = [] := rfl
  have a7 : freed_blocks [Event.array_malloc nb_cnx true] = [] := rfl
  have a8 : ∀ (pre post : List Event) (block : Nat),
      [Event.array_malloc nb_cnx true] = pre ++ Event.context_free block :: post →
        last_allocated none pre = some block := by
    intro pre post block h
    rcases pre with _ | ⟨p1, pre⟩ <;> simp at h
  have hb0 : (initial_state nb_cnx).blocks = 0 := rfl
  refine ⟨rfl, ?_, ?_, ?_, ?_, ?_, ?_, ?_⟩
  · rw [arrays_allocated_append, arrays_allocated_append, a1, h1, t1]
  · rw [contexts_allocated_append, contexts_allocated_append, a2, h2, t2]
    omega
  · rw [contexts_freed_append, contexts_freed_append, a3, h3, t3]
    omega
  · rw [contexts_allocated_append, contexts_allocated_append, contexts_freed_append,
      contexts_freed_append, workers_spawned_append, workers_spawned_append,
      a2, a3, a4, t2, t3, t4, h2]
    omega
  · rw [allocated_blocks_append, allocated_blocks_append, a6, b1, t6, hb0,
      List.nil_append, List.append_nil, List.range_eq_range']
  · rw [freed_blocks_append, freed_blocks_append, a7, b2, t7, hb0,
      List.nil_append, List.append_nil]
    rfl
  · exact frees_last_allocated_append none _ _
      (frees_last_allocated_append none _ _ a8 (b3 _ rfl)) (t8 _)

/-- C5 amended, on a run with two slots: a success, a denial, a spawn failure, a success. The
four iterations get the blocks 0 to 3, and the blocks freed are 1 and 2. -/
theorem contexts_per_iteration_witness :
    0 < 2 ∧
    contexts_allocated (run { log := 0 } 2
      [outcome.success 1, outcome.denial, outcome.spawn_failure 2, outcome.success 3]).2
      = attempts (run { log := 0 } 2
        [outcome.success 1, outcome.denial, outcome.spawn_failure 2, outcome.success 3]).2 ∧
    workers_spawned (run { log := 0 } 2
      [outcome.success 1, outcome.denial, outcome.spawn_failure 2, outcome.success 3]).2 = 2 ∧
    allocated_blocks (run { log := 0 } 2
      [outcome.success 1, outcome.denial, outcome.spawn_failure 2, outcome.success 3]).2
      = [0, 1, 2, 3] ∧
    freed_blocks (run { log := 0 } 2
      [outcome.success 1, outcome.denial, outcome.spawn_failure 2, outcome.success 3]).2
      = (((([outcome.success 1, outcome.denial, outcome.spawn_failure 2,
            outcome.success 3] : List outcome).take
          (attempts (run { log := 0 } 2
            [outcome.success 1, outcome.denial, outcome.spawn_failure 2,
              outcome.success 3]).2)).enum.filter (fun p => p.2.is_failure)).map Prod.fst) ∧
    freed_blocks (run { log := 0 } 2
      [outcome.success 1, outcome.denial, outcome.spawn_failure 2, outcome.success 3]).2
      = [1, 2] :=
  ⟨by decide,
    (contexts_per_iteration { log := 0 } 2
      [outcome.success 1, outcome.denial, outcome.spawn_failure 2, outcome.success 3]
      (by decide)).2.2.1,
    by decide,
    by decide,
    (contexts_per_iteration { log := 0 } 2
      [outcome.success 1, outcome.denial, outcome.spawn_failure 2, outcome.success 3]
      (by decide)).2.2.2.2.2.2.1,
    by decide⟩

/-! ## The worker and the release of a context -/

/-- Handles released in a concatenated trace. -/
theorem released_append (a b : List Event) : released (a ++ b) = released a ++ released b := by
  induction a with
  | nil => rfl
  | cons x xs ih => cases x <;> simp [released, ih]

/-- C6 as stated fails: for a context whose handle 7 is present and a handler that makes no
call of its own, `handle_client` calls the handler and then `pthread_exit`, and no
`ipc_socket_free` is issued for the handle. -/
theorem handle_client_does_not_release :
    handle_client (fun _ => []) { socket := some 7, log := 0 }
      = [Event.handler { socket := some 7, log := 0 }, Event.pthread_exit] ∧
    released (handle_client (fun _ => []) { socket := some 7, log := 0 }) = [] := by
  decide

/-- C6, amended. For every context and every handler, `handle_client` calls the handler on
that context, lets it run, and then calls `pthread_exit`; it releases nothing itself: the
handles released during the worker are exactly those the handler releases. -/
theorem handle_client_calls (handler : thread_context → List Event) (args : thread_context) :
    handle_client handler args = Event.handler args :: (handler args ++ [Event.pthread_exit]) ∧
    released (handle_client handler args) = released (handler args) := by
  constructor
  · simp [handle_client]
  · simp [handle_client, released_append, released]

/-- C7. `free_thread_context` calls `ipc_socket_free` exactly for the handle of the context
when it is present (once, with the context's sink) and not at all when it is absent; it then
frees the context. -/
theorem free_thread_context_release (block : Nat) (ctx : thread_context) :
    released (free_thread_context block ctx) = ctx.socket.toList ∧
    ((∃ socket log, Event.ipc_socket_free socket log ∈ free_thread_context block ctx)
      ↔ ctx.socket.isSome = true) ∧
    free_thread_context block ctx
      = ctx.socket.toList.map (fun socket => Event.ipc_socket_free socket ctx.log)
        ++ [Event.context_free block] := by
  obtain ⟨socket, log⟩ := ctx
  cases socket with
  | none => simp [free_thread_context, released]
  | some s => simp [free_thread_context, released]

/-! ## `parse_options` -/

/-- Whether an argument is accepted does not depend on the record being filled. -/
theorem parse_argument_isSome (sz : capacities) (options : ipc_options) (arg : List Char) :
    (parse_argument sz options arg).isSome = valid_argument sz arg := by
  unfold valid_argument parse_argument
  cases strchr arg (Char.ofNat 61) with
  | none => rfl
  | some i =>
    simp only []
    by_cases h_mq_name :
        strcmp_zero (List.take i arg) "mq_name".toList = true
    · simp only [h_mq_name, ↓reduceIte]
      split_ifs <;> simp only [Option.isSome_some, Option.isSome_none]
    simp only [h_mq_name, Bool.false_eq_true, ↓reduceIte]
    by_cases h_socket_path :
        strcmp_zero (List.take i arg) "socket_path".toList = true
    · simp only [h_socket_path, ↓reduceIte]
      split_ifs <;> simp only [Option.isSome_some, Option.isSome_none]
    simp only [h_socket_path, Bool.false_eq_true, ↓reduceIte]
    by_cases h_log_file :
        strcmp_zero (List.take i arg) "log_file".toList = true
    · simp only [h_log_file, ↓reduceIte]
      split_ifs <;> simp only [Option.isSome_some, Option.isSome_none]
    simp only [h_log_file, Bool.false_eq_true, ↓reduceIte]
    by_cases h_domain :
        strcmp_zero (List.take i arg) "domain".toList = true
    · simp only [h_domain, ↓reduceIte]
      split_ifs <;> simp only [Option.isSome_some, Option.isSome_none]
    simp only [h_domain, Bool.false_eq_true, ↓reduceIte]
    by_cases h_protocol :
        strcmp_zero (List.take i arg) "protocol".toList = true
    · simp only [h_protocol, ↓reduceIte]
      split_ifs <;> simp only [Option.isSome_some, Option.isSome_none]
    simp only [h_protocol, Bool.false_eq_true, ↓reduceIte]
    by_cases h_port :
        strcmp_zero (List.take i arg) "port".toList = true
    · simp only [h_port, ↓reduceIte]
      split_ifs <;> simp only [Option.isSome_some, Option.isSome_none]
    simp only [h_port, Bool.false_eq_true, ↓reduceIte]
    by_cases h_max_connections :
        strcmp_zero (List.take i arg) "max_connections".toList = true
    · simp only [h_max_connections, ↓reduceIte]
      split_ifs <;> simp only [Option.isSome_some, Option.isSome_none]
    simp only [h_max_connections, Bool.false_eq_true, ↓reduceIte]
    by_cases h_socket_permissions :
        strcmp_zero (List.take i arg) "socket_permissions".toList = true
    · simp only [h_socket_permissions, ↓reduceIte]
      split_ifs <;> simp only [Option.isSome_some, Option.isSome_none]
    simp only [h_socket_permissions, Bool.false_eq_true, ↓reduceIte]
    by_cases h_authorised_peer_username :
        strcmp_zero (List.take i arg) "authorised_peer_username".toList = true
    · simp only [h_authorised_peer_username, ↓reduceIte]
      split_ifs <;> simp only [Option.isSome_some, Option.isSome_none]
    simp only [h_authorised_peer_username, Bool.false_eq_true, ↓reduceIte]
    by_cases h_authorised_peer_uid :
        strcmp_zero (List.take i arg) "authorised_peer_uid".toList = true
    · simp only [h_authorised_peer_uid, ↓reduceIte]
      split_ifs <;> simp only [Option.isSome_some, Option.isSome_none]
    simp only [h_authorised_peer_uid, Bool.false_eq_true, ↓reduceIte]
    by_cases h_authorised_peer_gid :
        strcmp_zero (List.take i arg) "authorised_peer_gid".toList = true
    · simp only [h_authorised_peer_gid, ↓reduceIte]
      split_ifs <;> simp only [Option.isSome_some, Option.isSome_none]
    simp only [h_authorised_peer_gid, Bool.false_eq_true, ↓reduceIte]
    by_cases h_authorised_peer_pid :
        strcmp_zero (List.take i arg) "authorised_peer_pid".toList = true
    · simp only [h_authorised_peer_pid, ↓reduceIte]
      split_ifs <;> simp only [Option.isSome_some, Option.isSome_none]
    simp only [h_authorised_peer_pid, Bool.false_eq_true, ↓reduceIte]
    by_cases h_authorised_peer_process_name :
        strcmp_zero (List.take i arg) "authorised_peer_process_name".toList = true
    · simp only [h_authorised_peer_process_name, ↓reduceIte]
      split_ifs <;> simp only [Option.isSome_some, Option.isSome_none]
    simp only [h_authorised_peer_process_name, Bool.false_eq_true, ↓reduceIte]
    by_cases h_authorised_peer_cli_args :
        strcmp_zero (List.take i arg) "authorised_peer_cli_args".toList = true
    · simp only [h_authorised_peer_cli_args, ↓reduceIte]
      split_ifs <;> simp only [Option.isSome_some, Option.isSome_none]
    simp only [h_authorised_peer_cli_args, Bool.false_eq_true, ↓reduceIte]

/-- The loop returns failure at an invalid argument and leaves the record as it is. -/
theorem parse_arguments_invalid (sz : capacities) (options : ipc_options) (arg : List Char)
    (rest : List (List Char)) (h : valid_argument sz arg = false) :
    parse_arguments sz options (arg :: rest) = (false, options) := by
  have hnone : parse_argument sz options arg = none := by
    rw [← Option.not_isSome_iff_eq_none, parse_argument_isSome, h]
    simp
  simp [parse_arguments, hnone]

/-- The loop goes through valid arguments and carries on with the rest. -/
theorem parse_arguments_valid (sz : capacities) (rest : List (List Char)) :
    ∀ (pre : List (List Char)) (options : ipc_options),
      (∀ arg ∈ pre, valid_argument sz arg = true) →
      (parse_arguments sz options pre).1 = true ∧
      parse_arguments sz options (pre ++ rest)
        = parse_arguments sz (parse_arguments sz options pre).2 rest := by
  intro pre
  induction pre with
  | nil => intro options _; exact ⟨rfl, rfl⟩
  | cons arg pre ih =>
    intro options h
    have hv := h arg (List.mem_cons_self _ _)
    rw [← parse_argument_isSome sz options arg, Option.isSome_iff_exists] at hv
    obtain ⟨updated, hu⟩ := hv
    have := ih updated (fun a ha => h a (List.mem_cons_of_mem _ ha))
    simpa [parse_arguments, hu] using this

/-- C8. For every argument list whose first invalid argument comes after the valid arguments
`pre`, `parse_options` returns failure and leaves the record exactly as parsing `pre` alone
leaves it (and parsing `pre` alone succeeds): the earlier fields stay applied, the invalid
argument changes nothing, and nothing after it is applied. -/
theorem parse_options_first_invalid (sz : capacities) (options : ipc_options)
    (prog : List Char) (pre : List (List Char)) (bad : List Char) (post : List (List Char))
    (hpre : ∀ arg ∈ pre, valid_argument sz arg = true) (hbad : valid_argument sz bad = false) :
    parse_options sz options (prog :: (pre ++ bad :: post))
      = (false, (parse_options sz options (prog :: pre)).2) ∧
    (parse_options sz options (prog :: pre)).1 = true := by
  obtain ⟨h1, h2⟩ := parse_arguments_valid sz (bad :: post) pre options hpre
  unfold parse_options
  simp only [List.drop_succ_cons, List.drop_zero]
  exact ⟨by rw [h2, parse_arguments_invalid sz _ bad post hbad], h1⟩

/-- C8, on the arguments `port=80`, `bad`, `port=81`: the second has no separator; parsing fails
and the port stays at 80. -/
theorem parse_options_first_invalid_witness :
    ((∀ arg ∈ ["port=80".toList],
        valid_argument ⟨16, 16, 16, 5, 32, 16, 16⟩ arg = true) ∧
      valid_argument ⟨16, 16, 16, 5, 32, 16, 16⟩ "bad".toList = false) ∧
    (parse_options ⟨16, 16, 16, 5, 32, 16, 16⟩ blank_options
        ("daemon".toList :: (["port=80".toList] ++ "bad".toList :: ["port=81".toList]))
      = (false, (parse_options ⟨16, 16, 16, 5, 32, 16, 16⟩ blank_options
          ("daemon".toList :: ["port=80".toList])).2) ∧
      (parse_options ⟨16, 16, 16, 5, 32, 16, 16⟩ blank_options
          ("daemon".toList :: ["port=80".toList])).1 = true) ∧
    (parse_options ⟨16, 16, 16, 5, 32, 16, 16⟩ blank_options
        ("daemon".toList :: (["port=80".toList] ++ "bad".toList :: ["port=81".toList]))).2.port
      = 80 :=
  ⟨⟨by decide, by decide⟩,
    parse_options_first_invalid ⟨16, 16, 16, 5, 32, 16, 16⟩ blank_options "daemon".toList
      ["port=80".toList] "bad".toList ["port=81".toList] (by decide) (by decide),
    by decide⟩

/-! ### Arguments without a separator or with an unknown key -/

/-- The C string at a region of memory, by its first byte. -/
theorem c_string_cons (b : Char) (s : List Char) :
    c_string (b :: s) = if b = NUL then [] else b :: c_string s := by
  unfold c_string
  by_cases h : b = NUL <;> simp [List.takeWhile_cons, h]

/-- The function `strchr` finds nothing when the character is not in the string. -/
theorem strchr_eq_none (c : Char) (hc : c ≠ NUL) :
    ∀ s : List Char, c ∉ c_string s → strchr s c = none := by
  intro s
  induction s with
  | nil => intro _; simp [strchr, hc]
  | cons b s ih =>
    intro h
    rw [c_string_cons] at h
    by_cases hb : b = NUL
    · have hbc : b ≠ c := fun e => hc (e ▸ hb)
      rw [strchr, if_neg hbc, if_pos hb]
    · rw [if_neg hb, List.mem_cons, not_or] at h
      have hbc : ¬ b = c := fun e => h.1 e.symm
      rw [strchr, if_neg hbc, if_neg hb, ih h.2]
      rfl

/-- When `strchr` finds the character at index `i`, the first `i` bytes hold no NUL and are
the
string up to the first occurrence of the character. -/
theorem strchr_eq_some (c : Char) (hc : c ≠ NUL) :
    ∀ (s : List Char) (i : Nat), strchr s c = some i →
      c_string (s.take i) = s.take i ∧
      s.take i = (c_string s).takeWhile (fun x => x != c) := by
  intro s
  induction s with
  | nil => intro i h; simp [strchr, hc] at h
  | cons b s ih =>
    intro i h
    by_cases hbc : b = c
    · have hb : b ≠ NUL := fun e => hc (hbc ▸ e)
      rw [strchr, if_pos hbc, Option.some.injEq] at h
      subst h
      refine ⟨rfl, ?_⟩
      rw [c_string_cons, if_neg hb]
      simp [List.takeWhile_cons, hbc]
    · by_cases hb : b = NUL
      · rw [strchr, if_neg hbc, if_pos hb] at h
        exact absurd h (by simp)
      · rw [strchr, if_neg hbc, if_neg hb, Option.map_eq_some'] at h
        obtain ⟨j, hj, rfl⟩ := h
        obtain ⟨h1, h2⟩ := ih j hj
        simp [c_string_cons, hb, hbc, h1, ← h2]

/-- An argument without a separator, or whose key is not recognised, is rejected, whatever
the record holds. -/
theorem parse_argument_unknown (sz : capacities) (options : ipc_options) (arg : List Char)
    (h : Char.ofNat 61 ∉ c_string arg ∨ key_of arg ∉ recognised_keys) :
    parse_argument sz options arg = none := by
  have hsep : Char.ofNat 61 ≠ NUL := by decide
  cases hs : strchr arg (Char.ofNat 61) with
  | none => simp [parse_argument, hs]
  | some i =>
    have hkey : key_of arg ∉ recognised_keys := by
      rcases h with h | h
      · rw [strchr_eq_none _ hsep arg h] at hs
        exact absurd hs (by simp)
      · exact h
    obtain ⟨h1, h2⟩ := strchr_eq_some _ hsep arg i hs
    have hall : ∀ k ∈ recognised_keys, strcmp_zero (arg.take i) k = false := by
      intro k hk
      have hck : ∀ k ∈ recognised_keys, c_string k = k := by decide
      unfold strcmp_zero
      rw [h1, hck k hk, h2, beq_eq_false_iff_ne]
      intro e
      exact hkey (by unfold key_of; rw [e]; exact hk)
    have k1 := hall "mq_name".toList (by decide)
    have k2 := hall "socket_path".toList (by decide)
    have k3 := hall "log_file".toList (by decide)
    have k4 := hall "domain".toList (by decide)
    have k5 := hall "protocol".toList (by decide)
    have k6 := hall "port".toList (by decide)
    have k7 := hall "max_connections".toList (by decide)
    have k8 := hall "socket_permissions".toList (by decide)
    have k9 := hall "authorised_peer_username".toList (by decide)
    have k10 := hall "authorised_peer_uid".toList (by decide)
    have k11 := hall "authorised_peer_gid".toList (by decide)
    have k12 := hall "authorised_peer_pid".toList (by decide)
    have k13 := hall "authorised_peer_process_name".toList (by decide)
    have k14 := hall "authorised_peer_cli_args".toList (by decide)
    unfold parse_argument
    rw [hs]
    simp only [k1, k2, k3, k4, k5, k6, k7, k8, k9, k10, k11, k12, k13, k14,
      Bool.false_eq_true, ↓reduceIte]

/-- The loop returns failure when it holds an argument that is rejected whatever the record. -/
theorem parse_arguments_rejected (sz : capacities) (arg : List Char) (post : List (List Char))
    (h : ∀ options, parse_argument sz options arg = none) :
    ∀ (pre : List (List Char)) (options : ipc_options),
      (parse_arguments sz options (pre ++ arg :: post)).1 = false := by
  intro pre
  induction pre with
  | nil => intro options; simp [parse_arguments, h options]
  | cons a pre ih =>
    intro options
    cases ha : parse_argument sz options a with
    | none => simp [parse_arguments, ha]
    | some updated => simpa [parse_arguments, ha] using ih updated

/-- C9. `parse_options` returns failure whenever one of the arguments after `argv[0]` contains
no `=`, or has before its first `=` a key that is not one of the recognised keys, whatever
follows the `=`, whatever the other arguments and whatever the record holds. -/
theorem parse_options_unknown (sz : capacities) (options : ipc_options) (prog : List Char)
    (pre : List (List Char)) (arg : List Char) (post : List (List Char))
    (h : Char.ofNat 61 ∉ c_string arg ∨ key_of arg ∉ recognised_keys) :
    (parse_options sz options (prog :: (pre ++ arg :: post))).1 = false := by
  unfold parse_options
  simp only [List.drop_succ_cons, List.drop_zero]
  exact parse_arguments_rejected sz arg post
    (fun o => parse_argument_unknown sz o arg h) pre options

/-- C9, on an argument without separator (`verbose`) and on one with an unknown key
(`colour=red`), each after a valid `port=80`. -/
theorem parse_options_unknown_witness :
    ((Char.ofNat 61 ∉ c_string "verbose".toList ∨ key_of "verbose".toList ∉ recognised_keys) ∧
      (parse_options ⟨16, 16, 16, 5, 32, 16, 16⟩ blank_options
        ("daemon".toList :: (["port=80".toList] ++ "verbose".toList :: []))).1 = false) ∧
    ((Char.ofNat 61 ∉ c_string "colour=red".toList ∨
        key_of "colour=red".toList ∉ recognised_keys) ∧
      (parse_options ⟨16, 16, 16, 5, 32, 16, 16⟩ blank_options
        ("daemon".toList :: (["port=80".toList] ++ "colour=red".toList :: []))).1 = false) :=
  ⟨⟨Or.inl (by decide),
      parse_options_unknown ⟨16, 16, 16, 5, 32, 16, 16⟩ blank_options "daemon".toList
        ["port=80".toList] "verbose".toList [] (Or.inl (by decide))⟩,
    ⟨Or.inr (by decide),
      parse_options_unknown ⟨16, 16, 16, 5, 32, 16, 16⟩ blank_options "daemon".toList
        ["port=80".toList] "colour=red".toList [] (Or.inr (by decide))⟩⟩

/-! ### Defaults -/

/-- C10, evaluated where it fails: with the defaults uid 1000, gid 100 and pid 1,
`initialise_options` followed by `parse_options` without arguments leaves
`authorised_peer_uid` at 1 (the default pid), `authorised_peer_gid` at 1000 (the default uid)
and `authorised_peer_pid` at 100 (the default gid). -/
theorem initialise_options_identity_defaults :
    (parse_options ⟨16, 16, 16, 5, 32, 16, 16⟩
      (initialise_options ⟨16, 16, 16, 5, 32, 16, 16⟩
        { IPC_MQ_NAME := "/mq".toList, IPC_LOG_FILE := "log".toList,
          IPC_SOCKET_PATH := "sock".toList, IPC_DOMAIN := 1, IPC_PROTOCOL := 1,
          IPC_PORT := 8080, IPC_NB_CNX := 10, IPC_SOCKET_PERMS := "0660".toList,
          IPC_AUTHORIZED_PEER_USERNAME := "root".toList,
          IPC_AUTHORIZED_PEER_UID := 1000, IPC_AUTHORIZED_PEER_GID := 100,
          IPC_AUTHORIZED_PEER_PID := 1 }
        blank_options)
      ["daemon".toList])
    = (true,
        { mq_name := "/mq".toList ++ List.replicate 13 NUL,
          log_file := "log".toList ++ List.replicate 13 NUL,
          socket_path := "sock".toList ++ List.replicate 12 NUL,
          verbosity := 0, domain := 1, protocol := 1, port := 8080, max_connections := 10,
          socket_permissions := "0660".toList ++ [NUL],
          authorised_peer_username := "root".toList ++ [NUL],
          authorised_peer_uid := 1, authorised_peer_gid := 1000, authorised_peer_pid := 100,
          authorised_peer_process_name := [NUL], authorised_peer_cli_args := [NUL] }) := by
  decide

/-! ## The branches of `parse_options` -/

/-- In `key=value` with a key that holds neither `=` nor NUL, `strchr` finds the separator
right after the key. -/
theorem strchr_token (value : List Char) :
    ∀ key : List Char, (∀ c ∈ key, c ≠ Char.ofNat 61 ∧ c ≠ NUL) →
      strchr (token key value) (Char.ofNat 61) = some key.length := by
  intro key
  induction key with
  | nil => intro _; simp [token, strchr]
  | cons b key ih =>
    intro h
    have hb := h b (List.mem_cons_self _ _)
    have := ih (fun c hc => h c (List.mem_cons_of_mem _ hc))
    unfold token at this ⊢
    rw [List.cons_append, strchr, if_neg hb.1, if_neg hb.2, this]
    rfl

/-- The key of `key=value`, as `parse_options` cuts it. -/
theorem take_token (key value : List Char) : (token key value).take key.length = key := by
  simp [token]

/-- The value of `key=value`, as `parse_options` cuts it. -/
theorem drop_token (key value : List Char) :
    (token key value).drop (key.length + 1) = value := by
  induction key with
  | nil => rfl
  | cons b key ih => simp [token]

/-- For every recognised key, `strcmp` against the key constants tells the keys apart, and
the key holds neither `=` nor NUL. -/
theorem recognised_keys_distinct :
    ∀ key ∈ recognised_keys,
      (∀ other ∈ recognised_keys, strcmp_zero key other = (key == other)) ∧
      (∀ c ∈ key, c ≠ Char.ofNat 61 ∧ c ≠ NUL) := by
  decide

/-- The branch of `parse_options` for the key `mq_name`; `q` is what follows
the first `=` of the argument. -/
theorem parse_argument_mq_name (sz : capacities) (options : ipc_options)
    (arg q : List Char) (i : Nat) (hs : strchr arg (Char.ofNat 61) = some i)
    (hk : arg.take i = "mq_name".toList) (hq : arg.drop (i + 1) = q) :
    parse_argument sz options arg =
      (if q.getD 0 NUL ≠ Char.ofNat 47 ∧ strlen q ≥ to_uint16 sz.mq_name then none
        else some { options with
          mq_name := strncpy (memset options.mq_name NUL (to_uint16 sz.mq_name)) q
            (to_size_t (to_uint16 sz.mq_name - 1)) }) := by
  have k0 : strcmp_zero "mq_name".toList "mq_name".toList = true := by decide
  unfold parse_argument
  rw [hs]
  simp only [hk, hq, k0, Bool.false_eq_true, ↓reduceIte]

/-- The branch of `parse_options` for the key `socket_path`; `q` is what follows
the first `=` of the argument. -/
theorem parse_argument_socket_path (sz : capacities) (options : ipc_options)
    (arg q : List Char) (i : Nat) (hs : strchr arg (Char.ofNat 61) = some i)
    (hk : arg.take i = "socket_path".toList) (hq : arg.drop (i + 1) = q) :
    parse_argument sz options arg =
      (if strlen q ≥ to_uint8 sz.socket_path then none
        else some { options with
          socket_path := strncpy (memset options.socket_path NUL (to_uint8 sz.socket_path))
            q (to_size_t (to_uint8 sz.socket_path - 1)) }) := by
  have k0 : strcmp_zero "socket_path".toList "mq_name".toList = false := by decide
  have k1 : strcmp_zero "socket_path".toList "socket_path".toList = true := by decide
  unfold parse_argument
  rw [hs]
  simp only [hk, hq, k0, k1, Bool.false_eq_true, ↓reduceIte]

/-- The branch of `parse_options` for the key `log_file`; `q` is what follows
the first `=` of the argument. -/
theorem parse_argument_log_file (sz : capacities) (options : ipc_options)
    (arg q : List Char) (i : Nat) (hs : strchr arg (Char.ofNat 61) = some i)
    (hk : arg.take i = "log_file".toList) (hq : arg.drop (i + 1) = q) :
    parse_argument sz options arg =
      (if strlen q ≥ to_uint16 sz.log_file then none
        else some { options with
          log_file := strncpy (memset options.log_file NUL (to_uint16 sz.log_file))
            q (to_size_t (to_uint16 sz.log_file - 1)) }) := by
  have k0 : strcmp_zero "log_file".toList "mq_name".toList = false := by decide
  have k1 : strcmp_zero "log_file".toList "socket_path".toList = false := by decide
  have k2 : strcmp_zero "log_file".toList "log_file".toList = true := by decide
  unfold parse_argument
  rw [hs]
  simp only [hk, hq, k0, k1, k2, Bool.false_eq_true, ↓reduceIte]

/-- The branch of `parse_options` for the key `domain`; `q` is what follows
the first `=` of the argument. -/
theorem parse_argument_domain (sz : capacities) (options : ipc_options)
    (arg q : List Char) (i : Nat) (hs : strchr arg (Char.ofNat 61) = some i)
    (hk : arg.take i = "domain".toList) (hq : arg.drop (i + 1) = q) :
    parse_argument sz options arg =
      (if strcmp_zero q "AF_UNIX".toList ∨ strcmp_zero q "AF_LOCAL".toList then
          some { options with domain := AF_UNIX }
        else if strcmp_zero q "AF_INET".toList then some { options with domain := AF_INET }
        else none) := by
  have k0 : strcmp_zero "domain".toList "mq_name".toList = false := by decide
  have k1 : strcmp_zero "domain".toList "socket_path".toList = false := by decide
  have k2 : strcmp_zero "domain".toList "log_file".toList = false := by decide
  have k3 : strcmp_zero "domain".toList "domain".toList = true := by decide
  unfold parse_argument
  rw [hs]
  simp only [hk, hq, k0, k1, k2, k3, Bool.false_eq_true, ↓reduceIte]

/-- The branch of `parse_options` for the key `protocol`; `q` is what follows
the first `=` of the argument. -/
theorem parse_argument_protocol (sz : capacities) (options : ipc_options)
    (arg q : List Char) (i : Nat) (hs : strchr arg (Char.ofNat 61) = some i)
    (hk : arg.take i = "protocol".toList) (hq : arg.drop (i + 1) = q) :
    parse_argument sz options arg =
      (if strcmp_zero q "SOCK_STREAM".toList then
          some { options with protocol := SOCK_STREAM }
        else none) := by
  have k0 : strcmp_zero "protocol".toList "mq_name".toList = false := by decide
  have k1 : strcmp_zero "protocol".toList "socket_path".toList = false := by decide
  have k2 : strcmp_zero "protocol".toList "log_file".toList = false := by decide
  have k3 : strcmp_zero "protocol".toList "domain".toList = false := by decide
  have k4 : strcmp_zero "protocol".toList "protocol".toList = true := by decide
  unfold parse_argument
  rw [hs]
  simp only [hk, hq, k0, k1, k2, k3, k4, Bool.false_eq_true, ↓reduceIte]

/-- The branch of `parse_options` for the key `port`; `q` is what follows
the first `=` of the argument. -/
theorem parse_argument_port (sz : capacities) (options : ipc_options)
    (arg q : List Char) (i : Nat) (hs : strchr arg (Char.ofNat 61) = some i)
    (hk : arg.take i = "port".toList) (hq : arg.drop (i + 1) = q) :
    parse_argument sz options arg =
      (if to_int (strtol q) > 1 ∧ to_int (strtol q) < 65635 then
          some { options with port := to_uint16 (to_int (strtol q)) }
        else none) := by
  have k0 : strcmp_zero "port".toList "mq_name".toList = false := by decide
  have k1 : strcmp_zero "port".toList "socket_path".toList = false := by decide
  have k2 : strcmp_zero "port".toList "log_file".toList = false := by decide
  have k3 : strcmp_zero "port".toList "domain".toList = false := by decide
  have k4 : strcmp_zero "port".toList "protocol".toList = false := by decide
  have k5 : strcmp_zero "port".toList "port".toList = true := by decide
  unfold parse_argument
  rw [hs]
  simp only [hk, hq, k0, k1, k2, k3, k4, k5, Bool.false_eq_true, ↓reduceIte]

/-- The branch of `parse_options` for the key `max_connections`; `q` is what follows
the first `=` of the argument. -/
theorem parse_argument_max_connections (sz : capacities) (options : ipc_options)
    (arg q : List Char) (i : Nat) (hs : strchr arg (Char.ofNat 61) = some i)
    (hk : arg.take i = "max_connections".toList) (hq : arg.drop (i + 1) = q) :
    parse_argument sz options arg =
      (if to_int (strtol q) > 0 then
          some { options with max_connections := to_uint8 (to_int (strtol q)) }
        else none) := by
  have k0 : strcmp_zero "max_connections".toList "mq_name".toList = false := by decide
  have k1 : strcmp_zero "max_connections".toList "socket_path".toList = false := by decide
  have k2 : strcmp_zero "max_connections".toList "log_file".toList = false := by decide
  have k3 : strcmp_zero "max_connections".toList "domain".toList = false := by decide
  have k4 : strcmp_zero "max_connections".toList "protocol".toList = false := by decide
  have k5 : strcmp_zero "max_connections".toList "port".toList = false := by decide
  have k6 : strcmp_zero "max_connections".toList "max_connections".toList = true := by decide
  unfold parse_argument
  rw [hs]
  simp only [hk, hq, k0, k1, k2, k3, k4, k5, k6, Bool.false_eq_true, ↓reduceIte]

/-- The branch of `parse_options` for the key `socket_permissions`; `q` is what follows
the first `=` of the argument. -/
theorem parse_argument_socket_permissions (sz : capacities) (options : ipc_options)
    (arg q : List Char) (i : Nat) (hs : strchr arg (Char.ofNat 61) = some i)
    (hk : arg.take i = "socket_permissions".toList) (hq : arg.drop (i + 1) = q) :
    parse_argument sz options arg =
      (if strlen q = to_size_t (sz.socket_permissions - 1) ∧
            digits_loop q (to_int sz.socket_permissions - 1) then
          some { options with
            socket_permissions :=
              strncpy (memset options.socket_permissions NUL sz.socket_permissions) q
                (to_size_t (sz.socket_permissions - 1)) }
        else none) := by
  have k0 : strcmp_zero "socket_permissions".toList "mq_name".toList = false := by decide
  have k1 : strcmp_zero "socket_permissions".toList "socket_path".toList = false := by decide
  have k2 : strcmp_zero "socket_permissions".toList "log_file".toList = false := by decide
  have k3 : strcmp_zero "socket_permissions".toList "domain".toList = false := by decide
  have k4 : strcmp_zero "socket_permissions".toList "protocol".toList = false := by decide
  have k5 : strcmp_zero "socket_permissions".toList "port".toList = false := by decide
  have k6 : strcmp_zero "socket_permissions".toList "max_connections".toList = false := by decide
  have k7 : strcmp_zero "socket_permissions".toList "socket_permissions".toList = true := by decide
  unfold parse_argument
  rw [hs]
  simp only [hk, hq, k0, k1, k2, k3, k4, k5, k6, k7, Bool.false_eq_true, ↓reduceIte]

/-- The branch of `parse_options` for the key `authorised_peer_username`; `q` is what follows
the first `=` of the argument. -/
theorem parse_argument_authorised_peer_username (sz : capacities) (options : ipc_options)
    (arg q : List Char) (i : Nat) (hs : strchr arg (Char.ofNat 61) = some i)
    (hk : arg.take i = "authorised_peer_username".toList) (hq : arg.drop (i + 1) = q) :
    parse_argument sz options arg =
      (if strlen q < 31 then
          some { options with
            authorised_peer_username :=
              strncpy (memset options.authorised_peer_username NUL sz.authorised_peer_username)
                q (to_size_t (sz.authorised_peer_username - 1)) }
        else none) := by
  have k0 : strcmp_zero "authorised_peer_username".toList "mq_name".toList = false := by decide
  have k1 : strcmp_zero "authorised_peer_username".toList "socket_path".toList = false := by decide
  have k2 : strcmp_zero "authorised_peer_username".toList "log_file".toList = false := by decide
  have k3 : strcmp_zero "authorised_peer_username".toList "domain".toList = false := by decide
  have k4 : strcmp_zero "authorised_peer_username".toList "protocol".toList = false := by decide
  have k5 : strcmp_zero "authorised_peer_username".toList "port".toList = false := by decide
  have k6 : strcmp_zero "authorised_peer_username".toList
      "max_connections".toList = false := by decide
  have k7 : strcmp_zero "authorised_peer_username".toList
      "socket_permissions".toList = false := by decide
  have k8 : strcmp_zero "authorised_peer_username".toList
      "authorised_peer_username".toList = true := by decide
  unfold parse_argument
  rw [hs]
  simp only [hk, hq, k0, k1, k2, k3, k4, k5, k6, k7, k8, Bool.false_eq_true, ↓reduceIte]

/-- The branch of `parse_options` for the key `authorised_peer_uid`; `q` is what follows
the first `=` of the argument. -/
theorem parse_argument_authorised_peer_uid (sz : capacities) (options : ipc_options)
    (arg q : List Char) (i : Nat) (hs : strchr arg (Char.ofNat 61) = some i)
    (hk : arg.take i = "authorised_peer_uid".toList) (hq : arg.drop (i + 1) = q) :
    parse_argument sz options arg =
      (if digits_loop q (to_int (strlen q)) then
          some { options with authorised_peer_uid := to_unsigned (strtol q) }
        else none) := by
  have k0 : strcmp_zero "authorised_peer_uid".toList "mq_name".toList = false := by decide
  have k1 : strcmp_zero "authorised_peer_uid".toList "socket_path".toList = false := by decide
  have k2 : strcmp_zero "authorised_peer_uid".toList "log_file".toList = false := by decide
  have k3 : strcmp_zero "authorised_peer_uid".toList "domain".toList = false := by decide
  have k4 : strcmp_zero "authorised_peer_uid".toList "protocol".toList = false := by decide
  have k5 : strcmp_zero "authorised_peer_uid".toList "port".toList = false := by decide
  have k6 : strcmp_zero "authorised_peer_uid".toList "max_connections".toList = false := by decide
  have k7 : strcmp_zero "authorised_peer_uid".toList
      "socket_permissions".toList = false := by decide
  have k8 : strcmp_zero "authorised_peer_uid".toList
      "authorised_peer_username".toList = false := by decide
  have k9 : strcmp_zero "authorised_peer_uid".toList
      "authorised_peer_uid".toList = true := by decide
  unfold parse_argument
  rw [hs]
  simp only [hk, hq, k0, k1, k2, k3, k4, k5, k6, k7, k8, k9, Bool.false_eq_true, ↓reduceIte]

/-- The branch of `parse_options` for the key `authorised_peer_gid`; `q` is what follows
the first `=` of the argument. -/
theorem parse_argument_authorised_peer_gid (sz : capacities) (options : ipc_options)
    (arg q : List Char) (i : Nat) (hs : strchr arg (Char.ofNat 61) = some i)
    (hk : arg.take i = "authorised_peer_gid".toList) (hq : arg.drop (i + 1) = q) :
    parse_argument sz options arg =
      (if digits_loop q (to_int (strlen q)) then
          some { options with authorised_peer_gid := to_unsigned (strtol q) }
        else none) := by
  have k0 : strcmp_zero "authorised_peer_gid".toList "mq_name".toList = false := by decide
  have k1 : strcmp_zero "authorised_peer_gid".toList "socket_path".toList = false := by decide
  have k2 : strcmp_zero "authorised_peer_gid".toList "log_file".toList = false := by decide
  have k3 : strcmp_zero "authorised_peer_gid".toList "domain".toList = false := by decide
  have k4 : strcmp_zero "authorised_peer_gid".toList "protocol".toList = false := by decide
  have k5 : strcmp_zero "authorised_peer_gid".toList "port".toList = false := by decide
  have k6 : strcmp_zero "authorised_peer_gid".toList "max_connections".toList = false := by decide
  have k7 : strcmp_zero "authorised_peer_gid".toList
      "socket_permissions".toList = false := by decide
  have k8 : strcmp_zero "authorised_peer_gid".toList
      "authorised_peer_username".toList = false := by decide
  have k9 : strcmp_zero "authorised_peer_gid".toList
      "authorised_peer_uid".toList = false := by decide
  have k10 : strcmp_zero "authorised_peer_gid".toList
      "authorised_peer_gid".toList = true := by decide
  unfold parse_argument
  rw [hs]
  simp only [hk, hq, k0, k1, k2, k3, k4, k5, k6, k7, k8, k9, k10, Bool.false_eq_true, ↓reduceIte]

/-- The branch of `parse_options` for the key `authorised_peer_pid`; `q` is what follows
the first `=` of the argument. -/
theorem parse_argument_authorised_peer_pid (sz : capacities) (options : ipc_options)
    (arg q : List Char) (i : Nat) (hs : strchr arg (Char.ofNat 61) = some i)
    (hk : arg.take i = "authorised_peer_pid".toList) (hq : arg.drop (i + 1) = q) :
    parse_argument sz options arg =
      (if digits_loop q (to_int (strlen q)) then
          some { options with authorised_peer_pid := to_unsigned (strtol q) }
        else none) := by
  have k0 : strcmp_zero "authorised_peer_pid".toList "mq_name".toList = false := by decide
  have k1 : strcmp_zero "authorised_peer_pid".toList "socket_path".toList = false := by decide
  have k2 : strcmp_zero "authorised_peer_pid".toList "log_file".toList = false := by decide
  have k3 : strcmp_zero "authorised_peer_pid".toList "domain".toList = false := by decide
  have k4 : strcmp_zero "authorised_peer_pid".toList "protocol".toList = false := by decide
  have k5 : strcmp_zero "authorised_peer_pid".toList "port".toList = false := by decide
  have k6 : strcmp_zero "authorised_peer_pid".toList "max_connections".toList = false := by decide
  have k7 : strcmp_zero "authorised_peer_pid".toList
      "socket_permissions".toList = false := by decide
  have k8 : strcmp_zero "authorised_peer_pid".toList
      "authorised_peer_username".toList = false := by decide
  have k9 : strcmp_zero "authorised_peer_pid".toList
      "authorised_peer_uid".toList = false := by decide
  have k10 : strcmp_zero "authorised_peer_pid".toList
      "authorised_peer_gid".toList = false := by decide
  have k11 : strcmp_zero "authorised_peer_pid".toList
      "authorised_peer_pid".toList = true := by decide
  unfold parse_argument
  rw [hs]
  simp only [hk, hq, k0, k1, k2, k3, k4, k5, k6, k7, k8, k9, k10, k11,
    Bool.false_eq_true, ↓reduceIte]

/-- The branch of `parse_options` for the key `authorised_peer_process_name`; `q` is what follows
the first `=` of the argument. -/
theorem parse_argument_authorised_peer_process_name (sz : capacities) (options : ipc_options)
    (arg q : List Char) (i : Nat) (hs : strchr arg (Char.ofNat 61) = some i)
    (hk : arg.take i = "authorised_peer_process_name".toList) (hq : arg.drop (i + 1) = q) :
    parse_argument sz options arg =
      (if strlen q < sz.authorised_peer_process_name then
          some { options with
            authorised_peer_process_name :=
              strncpy
                (memset options.authorised_peer_process_name NUL
                  sz.authorised_peer_process_name)
                q (to_size_t (sz.authorised_peer_process_name - 1)) }
        else none) := by
  have k0 : strcmp_zero "authorised_peer_process_name".toList "mq_name".toList = false := by decide
  have k1 : strcmp_zero "authorised_peer_process_name".toList
      "socket_path".toList = false := by decide
  have k2 : strcmp_zero "authorised_peer_process_name".toList "log_file".toList = false := by decide
  have k3 : strcmp_zero "authorised_peer_process_name".toList "domain".toList = false := by decide
  have k4 : strcmp_zero "authorised_peer_process_name".toList "protocol".toList = false := by decide
  have k5 : strcmp_zero "authorised_peer_process_name".toList "port".toList = false := by decide
  have k6 : strcmp_zero "authorised_peer_process_name".toList
      "max_connections".toList = false := by decide
  have k7 : strcmp_zero "authorised_peer_process_name".toList
      "socket_permissions".toList = false := by decide
  have k8 : strcmp_zero "authorised_peer_process_name".toList
      "authorised_peer_username".toList = false := by decide
  have k9 : strcmp_zero "authorised_peer_process_name".toList
      "authorised_peer_uid".toList = false := by decide
  have k10 : strcmp_zero "authorised_peer_process_name".toList
      "authorised_peer_gid".toList = false := by decide
  have k11 : strcmp_zero "authorised_peer_process_name".toList
      "authorised_peer_pid".toList = false := by decide
  have k12 : strcmp_zero "authorised_peer_process_name".toList
      "authorised_peer_process_name".toList = true := by decide
  unfold parse_argument
  rw [hs]
  simp only [hk, hq, k0, k1, k2, k3, k4, k5, k6, k7, k8, k9, k10, k11, k12,
    Bool.false_eq_true, ↓reduceIte]

/-- The branch of `parse_options` for the key `authorised_peer_cli_args`; `q` is what follows
the first `=` of the argument. -/
theorem parse_argument_authorised_peer_cli_args (sz : capacities) (options : ipc_options)
    (arg q : List Char) (i : Nat) (hs : strchr arg (Char.ofNat 61) = some i)
    (hk : arg.take i = "authorised_peer_cli_args".toList) (hq : arg.drop (i + 1) = q) :
    parse_argument sz options arg =
      (if strlen q < sz.authorised_peer_cli_args then
          some { options with
            authorised_peer_cli_args :=
              strncpy (memset options.authorised_peer_cli_args NUL sz.authorised_peer_cli_args)
                q (to_size_t (sz.authorised_peer_cli_args - 1)) }
        else none) := by
  have k0 : strcmp_zero "authorised_peer_cli_args".toList "mq_name".toList = false := by decide
  have k1 : strcmp_zero "authorised_peer_cli_args".toList "socket_path".toList = false := by decide
  have k2 : strcmp_zero "authorised_peer_cli_args".toList "log_file".toList = false := by decide
  have k3 : strcmp_zero "authorised_peer_cli_args".toList "domain".toList = false := by decide
  have k4 : strcmp_zero "authorised_peer_cli_args".toList "protocol".toList = false := by decide
  have k5 : strcmp_zero "authorised_peer_cli_args".toList "port".toList = false := by decide
  have k6 : strcmp_zero "authorised_peer_cli_args".toList
      "max_connections".toList = false := by decide
  have k7 : strcmp_zero "authorised_peer_cli_args".toList
      "socket_permissions".toList = false := by decide
  have k8 : strcmp_zero "authorised_peer_cli_args".toList
      "authorised_peer_username".toList = false := by decide
  have k9 : strcmp_zero "authorised_peer_cli_args".toList
      "authorised_peer_uid".toList = false := by decide
  have k10 : strcmp_zero "authorised_peer_cli_args".toList
      "authorised_peer_gid".toList = false := by decide
  have k11 : strcmp_zero "authorised_peer_cli_args".toList
      "authorised_peer_pid".toList = false := by decide
  have k12 : strcmp_zero "authorised_peer_cli_args".toList
      "authorised_peer_process_name".toList = false := by decide
  have k13 : strcmp_zero "authorised_peer_cli_args".toList
      "authorised_peer_cli_args".toList = true := by decide
  unfold parse_argument
  rw [hs]
  simp only [hk, hq, k0, k1, k2, k3, k4, k5, k6, k7, k8, k9, k10, k11, k12, k13,
    Bool.false_eq_true, ↓reduceIte]

/-- The function `parse_options` on a single argument after `argv[0]`. -/
theorem parse_options_single (sz : capacities) (options : ipc_options) (prog arg : List Char) :
    parse_options sz options [prog, arg] =
      match parse_argument sz options arg with
      | none => (false, options)
      | some updated => (true, updated) := by
  unfold parse_options
  simp only [List.drop_succ_cons, List.drop_zero, parse_arguments]

/-- The branch for `authorised_peer_uid`, on the argument `authorised_peer_uid=value`. -/
theorem parse_argument_uid_token (sz : capacities) (options : ipc_options) (q : List Char) :
    parse_argument sz options (token "authorised_peer_uid".toList q) =
      (if digits_loop q (to_int (strlen q)) then
        some { options with authorised_peer_uid := to_unsigned (strtol q) }
      else none) := by
  exact parse_argument_authorised_peer_uid sz options _ q _
    (strchr_token q _ (by decide)) (take_token _ _) (drop_token _ _)

/-- The branch for `authorised_peer_gid`, on the argument `authorised_peer_gid=value`. -/
theorem parse_argument_gid_token (sz : capacities) (options : ipc_options) (q : List Char) :
    parse_argument sz options (token "authorised_peer_gid".toList q) =
      (if digits_loop q (to_int (strlen q)) then
        some { options with authorised_peer_gid := to_unsigned (strtol q) }
      else none) := by
  exact parse_argument_authorised_peer_gid sz options _ q _
    (strchr_token q _ (by decide)) (take_token _ _) (drop_token _ _)

/-- The branch for `authorised_peer_pid`, on the argument `authorised_peer_pid=value`. -/
theorem parse_argument_pid_token (sz : capacities) (options : ipc_options) (q : List Char) :
    parse_argument sz options (token "authorised_peer_pid".toList q) =
      (if digits_loop q (to_int (strlen q)) then
        some { options with authorised_peer_pid := to_unsigned (strtol q) }
      else none) := by
  exact parse_argument_authorised_peer_pid sz options _ q _
    (strchr_token q _ (by decide)) (take_token _ _) (drop_token _ _)

/-- C19. For every record and all array sizes, `parse_options` accepts the arguments
`authorised_peer_uid=`, `authorised_peer_gid=` and `authorised_peer_pid=` with nothing after
the `=`, and sets the identity field of that name to 0. -/
theorem parse_options_empty_identity (sz : capacities) (options : ipc_options)
    (prog : List Char) :
    parse_options sz options [prog, token "authorised_peer_uid".toList []]
      = (true, { options with authorised_peer_uid := 0 }) ∧
    parse_options sz options [prog, token "authorised_peer_gid".toList []]
      = (true, { options with authorised_peer_gid := 0 }) ∧
    parse_options sz options [prog, token "authorised_peer_pid".toList []]
      = (true, { options with authorised_peer_pid := 0 }) := by
  have hv : digits_loop [] (to_int (strlen [])) = true := by decide
  have h0 : to_unsigned (strtol []) = 0 := by decide
  refine ⟨?_, ?_, ?_⟩
  · rw [parse_options_single, parse_argument_uid_token, if_pos hv, h0]
  · rw [parse_options_single, parse_argument_gid_token, if_pos hv, h0]
  · rw [parse_options_single, parse_argument_pid_token, if_pos hv, h0]

/-- C11, evaluated where it fails: the argument `port=65600` is accepted (65600 is below the
bound 65635 of the test) and the 16-bit port field then holds 64, not 65600. -/
theorem parse_options_port_wraps :
    parse_options ⟨16, 16, 16, 5, 32, 16, 16⟩ blank_options
        ["daemon".toList, token "port".toList "65600".toList]
      = (true, { blank_options with port := 64 }) := by
  decide

/-- C12, evaluated where it fails: the argument `max_connections=256` is accepted (256 is
positive) and the 8-bit field then holds 0, which is not positive; and the positive number
2147483648 is rejected. -/
theorem parse_options_max_connections_wraps :
    parse_options ⟨16, 16, 16, 5, 32, 16, 16⟩ blank_options
        ["daemon".toList, token "max_connections".toList "256".toList]
      = (true, { blank_options with max_connections := 0 }) ∧
    (parse_options ⟨16, 16, 16, 5, 32, 16, 16⟩ blank_options
        ["daemon".toList, token "max_connections".toList "2147483648".toList]).1 = false := by
  decide

/-- C13, evaluated where it fails: with an `mq_name` array of 8 bytes, the argument
`mq_name=/abcdefghijkl`, whose value has 13 characters, is accepted, and the field then holds
the string `/abcdef`, the first 7 characters of the value. -/
theorem parse_options_mq_name_truncates :
    strlen "/abcdefghijkl".toList = 13 ∧
    (parse_options ⟨8, 16, 16, 5, 32, 16, 16⟩ blank_options
        ["daemon".toList, token "mq_name".toList "/abcdefghijkl".toList]).1 = true ∧
    c_string (parse_options ⟨8, 16, 16, 5, 32, 16, 16⟩ blank_options
        ["daemon".toList, token "mq_name".toList "/abcdefghijkl".toList]).2.mq_name
      = "/abcdef".toList := by
  decide

/-- C18, evaluated where it fails: on a regular file holding the 10 bytes `0123456789`,
`read_data_from_source` returns a buffer holding `0123456` and stores 7 in `*size`; on a regular
file holding the 3 bytes `abc` it returns NULL. -/
theorem read_data_from_source_reads_seven :
    read_data_from_source
        { log_fd := 3, regular := true, content := "0123456789".toList, calloc_ok := true,
          read_ok := true }
      = some ("0123456".toList ++ List.replicate 4 NUL, 7) ∧
    read_data_from_source
        { log_fd := 3, regular := true, content := "abc".toList, calloc_ok := true,
          read_ok := true }
      = none := by
  decide

/-! ## Strings in arrays -/

/-- A C string holds no NUL. -/
theorem nul_not_mem_c_string (s : List Char) : NUL ∉ c_string s := by
  intro h
  have := List.mem_takeWhile_imp h
  simp at this

/-- The C string in front of a NUL. -/
theorem c_string_append_nul (a rest : List Char) (h : NUL ∉ a) :
    c_string (a ++ NUL :: rest) = a := by
  induction a with
  | nil => simp [c_string]
  | cons b a ih =>
    rw [List.mem_cons, not_or] at h
    have hb : b ≠ NUL := fun e => h.1 e.symm
    rw [List.cons_append, c_string_cons, if_neg hb, ih h.2]

/-- A region without NUL is a C string as it stands. -/
theorem c_string_eq_self (a : List Char) (h : NUL ∉ a) : c_string a = a := by
  induction a with
  | nil => rfl
  | cons b a ih =>
    rw [List.mem_cons, not_or] at h
    have hb : b ≠ NUL := fun e => h.1 e.symm
    rw [c_string_cons, if_neg hb, ih h.2]

/-- After `memset(buf, 0, size)`, `strncpy(buf, q, n)` with `n < size` leaves `n` bytes (the
string `q` cut at `n` characters, then NULs) followed by a NUL. -/
theorem strncpy_memset (buf q : List Char) (size n : Nat) (h : n < size) :
    ∃ rest : List Char,
      strncpy (memset buf NUL size) q n =
        ((c_string q).take n ++ List.replicate (n - ((c_string q).take n).length) NUL)
          ++ NUL :: rest := by
  refine ⟨List.replicate (size - n - 1) NUL ++ buf.drop size, ?_⟩
  unfold strncpy memset
  have hd : List.drop n (List.replicate size NUL ++ List.drop size buf)
      = NUL :: (List.replicate (size - n - 1) NUL ++ buf.drop size) := by
    rw [List.drop_append_of_le_length (by simp; omega), List.drop_replicate]
    have : size - n = (size - n - 1) + 1 := by omega
    rw [this, List.replicate_succ]
    simp
  rw [hd]

/-- The string stored by `memset` and `strncpy` is the string copied, when it fits. -/
theorem c_string_strncpy_memset (buf q : List Char) (size n : Nat) (h : n < size)
    (hq : strlen q ≤ n) :
    c_string (strncpy (memset buf NUL size) q n) = c_string q := by
  obtain ⟨rest, hr⟩ := strncpy_memset buf q size n h
  have ht : (c_string q).take n = c_string q := List.take_of_length_le hq
  rw [hr, ht, List.append_assoc]
  have : List.replicate (n - (c_string q).length) NUL ++ NUL :: rest
      = NUL :: (List.replicate (n - (c_string q).length) NUL ++ rest) := by
    induction (n - (c_string q).length) with
    | zero => rfl
    | succ k ih => rw [List.replicate_succ, List.cons_append, ih]; simp [List.replicate_succ]
  rw [this]
  exact c_string_append_nul _ _ (nul_not_mem_c_string q)

/-- The array written by `memset` and `strncpy` holds a NUL within its size. -/
theorem terminated_strncpy_memset (buf q : List Char) (cap size n : Nat) (h : n < size)
    (hcap : size ≤ cap) : terminated cap (strncpy (memset buf NUL size) q n) := by
  obtain ⟨rest, hr⟩ := strncpy_memset buf q size n h
  unfold terminated
  rw [hr]
  have hlen : ((c_string q).take n
      ++ List.replicate (n - ((c_string q).take n).length) NUL).length = n := by
    have := List.length_take_le n (c_string q)
    simp only [List.length_append, List.length_replicate]
    omega
  rw [List.take_append_eq_append_take, hlen]
  have : cap - n = (cap - n - 1) + 1 := by omega
  rw [this, List.take_succ_cons]
  simp

/-! ## Conversions -/

/-- Conversion of a size to `uint16_t`. -/
theorem to_uint16_nat (x : Nat) : to_uint16 x = x % 2 ^ 16 := by
  unfold to_uint16
  omega

/-- Conversion of a size to `uint8_t`. -/
theorem to_uint8_nat (x : Nat) : to_uint8 x = x % 2 ^ 8 := by
  unfold to_uint8
  omega

/-- The count passed to `strncpy` is the size less one, for a positive size that fits `size_t`. -/
theorem to_size_t_pred (x : Nat) (h0 : 0 < x) (h : x ≤ 2 ^ 64) :
    to_size_t ((x : Int) - 1) = x - 1 := by
  unfold to_size_t
  omega

/-- Conversion of a size below `2 ^ 31` to `int`. -/
theorem to_int_nat (x : Nat) (h : x < 2 ^ 31) : to_int x = x := by
  unfold to_int
  omega

/-- Conversion of a length to `int` never gives more than the length. -/
theorem to_int_nat_le (x : Nat) : (to_int x).toNat ≤ x := by
  unfold to_int
  omega

/-! ## Digits -/

/-- The digit loop leaves `valid` set exactly when every character it visits is a digit. -/
theorem digits_loop_iff (q : List Char) (bound : Int) :
    digits_loop q bound = true ↔
      ∀ i : Nat, i < bound.toNat → isdigit (q.getD i NUL) = true := by
  unfold digits_loop
  generalize bound.toNat = n
  have key : ∀ (n : Nat) (init : Bool),
      (List.range n).foldl
          (fun valid index => if !isdigit (q.getD index NUL) then false else valid) init = true
        ↔ init = true ∧ ∀ i : Nat, i < n → isdigit (q.getD i NUL) = true := by
    intro n
    induction n with
    | zero => intro init; simp
    | succ k ih =>
      intro init
      rw [List.range_succ, List.foldl_append, List.foldl_cons, List.foldl_nil]
      cases hd : isdigit (q.getD k NUL) with
      | false =>
        simp only [Bool.not_false, if_true, Bool.false_eq_true, false_iff, not_and, not_forall]
        intro _
        exact ⟨k, Nat.lt_succ_self k, by rw [hd]; exact Bool.false_ne_true⟩
      | true =>
        simp only [Bool.not_true, Bool.false_eq_true, if_false]
        rw [ih init]
        constructor
        · rintro ⟨h1, h2⟩
          refine ⟨h1, fun i hi => ?_⟩
          rcases Nat.lt_succ_iff_lt_or_eq.mp hi with h | h
          · exact h2 i h
          · rw [h]; exact hd
        · rintro ⟨h1, h2⟩
          exact ⟨h1, fun i hi => h2 i (Nat.lt_succ_of_lt hi)⟩
  rw [key n true]
  simp

/-- Within its length, a C string is read from memory as it is. -/
theorem getD_c_string (q : List Char) :
    ∀ i : Nat, i < strlen q → q.getD i NUL = (c_string q).getD i NUL := by
  induction q with
  | nil => intro i h; simp [strlen, c_string] at h
  | cons b q ih =>
    intro i h
    unfold strlen at h ih
    rw [c_string_cons] at h ⊢
    by_cases hb : b = NUL
    · rw [if_pos hb] at h
      simp at h
    · rw [if_neg hb] at h ⊢
      cases i with
      | zero => rfl
      | succ j =>
        simp only [List.getD_cons_succ]
        exact ih j (by simpa using h)

/-- The digit loop run over the whole of a string tests every character of the string. -/
theorem digits_loop_strlen (q : List Char) :
    digits_loop q (strlen q) = true ↔ ∀ c ∈ c_string q, isdigit c = true := by
  rw [digits_loop_iff]
  simp only [Int.toNat_ofNat]
  constructor
  · intro h c hc
    obtain ⟨i, hi, rfl⟩ := List.getElem_of_mem hc
    have := h i hi
    rw [getD_c_string q i hi, List.getD_eq_getElem _ _ hi] at this
    exact this
  · intro h i hi
    rw [getD_c_string q i hi, List.getD_eq_getElem _ _ hi]
    exact h _ (List.getElem_mem _)

/-- A digit is not NUL, not white space and not a sign. -/
theorem isdigit_facts (c : Char) (h : isdigit c = true) :
    c ≠ NUL ∧ isspace c = false ∧ c ≠ Char.ofNat 45 ∧ c ≠ Char.ofNat 43 := by
  have hv : 48 ≤ c.val ∧ c.val ≤ 57 := by
    simpa [isdigit, Char.isDigit] using h
  have hn : 48 ≤ c.toNat ∧ c.toNat ≤ 57 := by
    obtain ⟨h1, h2⟩ := hv
    exact ⟨h1, h2⟩
  refine ⟨?_, ?_, ?_, ?_⟩
  · intro e; rw [e] at hn; revert hn; decide
  · unfold isspace
    have : c ≠ Char.ofNat 32 := by intro e; rw [e] at hn; revert hn; decide
    simp [this]
    omega
  · intro e; rw [e] at hn; revert hn; decide
  · intro e; rw [e] at hn; revert hn; decide

/-- On a string of digits, `strtol` returns the value of the digits, or `LONG_MAX` when the
value is larger. -/
theorem strtol_digits (s : List Char) (h : ∀ c ∈ s, isdigit c = true) :
    strtol s = min (decimal_value s : Int) LONG_MAX := by
  have hnul : NUL ∉ s := fun hm => (isdigit_facts _ (h _ hm)).1 rfl
  have hc : c_string s = s := c_string_eq_self s hnul
  have htake : s.takeWhile isdigit = s := by
    rw [List.takeWhile_eq_self_iff]
    exact h
  unfold strtol
  rw [hc]
  cases s with
  | nil => simp [decimal_value]
  | cons c rest =>
    obtain ⟨_, hsp, hm, hp⟩ := isdigit_facts c (h c (List.mem_cons_self _ _))
    have hdrop : (c :: rest).dropWhile isspace = c :: rest := by
      simp [List.dropWhile_cons, hsp]
    simp only [hdrop, if_neg hm, if_neg hp, htake, Bool.false_eq_true, if_false]

/-! ## Single arguments -/

/-- An argument the loop accepts makes `parse_options` succeed with the updated record. -/
theorem parse_options_single_some (sz : capacities) (options updated : ipc_options)
    (prog arg : List Char) (h : parse_argument sz options arg = some updated) :
    parse_options sz options [prog, arg] = (true, updated) := by
  rw [parse_options_single, h]

/-- An argument the loop rejects makes `parse_options` fail with the record as it was. -/
theorem parse_options_single_none (sz : capacities) (options : ipc_options)
    (prog arg : List Char) (h : parse_argument sz options arg = none) :
    parse_options sz options [prog, arg] = (false, options) := by
  rw [parse_options_single, h]

/-- The digit loop accepts a string of digits. -/
theorem digits_loop_digits (s : List Char) (h : ∀ c ∈ s, isdigit c = true) :
    digits_loop s (to_int (strlen s)) = true := by
  have hnul : NUL ∉ s := fun hm => (isdigit_facts _ (h _ hm)).1 rfl
  have hc : c_string s = s := c_string_eq_self s hnul
  rw [digits_loop_iff]
  intro i hi
  have hlen : i < s.length := by
    have := to_int_nat_le (strlen s)
    unfold strlen at this hi
    rw [hc] at this hi
    omega
  rw [List.getD_eq_getElem _ _ hlen]
  exact h _ (List.getElem_mem _)

/-- The value of digits, one digit at a time: the last digit counts for itself and the digits
before it count ten times their value. -/
theorem decimal_value_append (s : List Char) (c : Char) :
    decimal_value (s ++ [c]) = 10 * decimal_value s + (c.toNat - 48) := by
  simp [decimal_value, List.foldl_append]

/-- C17 as stated fails: the argument `authorised_peer_uid=4294967296`, a non-empty string of
digits, is accepted, and the 32-bit field then holds 0, not 4294967296. -/
theorem parse_options_identity_wraps :
    (∀ c ∈ "4294967296".toList, isdigit c = true) ∧
    decimal_value "4294967296".toList = 4294967296 ∧
    parse_options ⟨16, 16, 16, 5, 32, 16, 16⟩ blank_options
        ["daemon".toList, token "authorised_peer_uid".toList "4294967296".toList]
      = (true, { blank_options with authorised_peer_uid := 0 }) := by
  decide

/-- C17, amended. For every string `s` of decimal digits, `parse_options` accepts
`authorised_peer_uid=s`, `authorised_peer_gid=s` and `authorised_peer_pid=s` and stores in the
field of that name the value of `s` (capped at `LONG_MAX`) reduced modulo `2 ^ 32`; this is
the integer `s` denotes whenever that integer is below `2 ^ 32`. -/
theorem parse_options_identity_digits (sz : capacities) (options : ipc_options)
    (prog s : List Char) (h : ∀ c ∈ s, isdigit c = true) :
    parse_options sz options [prog, token "authorised_peer_uid".toList s]
      = (true, { options with
          authorised_peer_uid := to_unsigned (min (decimal_value s : Int) LONG_MAX) }) ∧
    parse_options sz options [prog, token "authorised_peer_gid".toList s]
      = (true, { options with
          authorised_peer_gid := to_unsigned (min (decimal_value s : Int) LONG_MAX) }) ∧
    parse_options sz options [prog, token "authorised_peer_pid".toList s]
      = (true, { options with
          authorised_peer_pid := to_unsigned (min (decimal_value s : Int) LONG_MAX) }) ∧
    (decimal_value s < 2 ^ 32 →
      to_unsigned (min (decimal_value s : Int) LONG_MAX) = decimal_value s) := by
  have hv := digits_loop_digits s h
  have hs := strtol_digits s h
  refine ⟨?_, ?_, ?_, ?_⟩
  · rw [parse_options_single, parse_argument_uid_token, if_pos hv, hs]
  · rw [parse_options_single, parse_argument_gid_token, if_pos hv, hs]
  · rw [parse_options_single, parse_argument_pid_token, if_pos hv, hs]
  · intro hlt
    unfold to_unsigned LONG_MAX
    omega

/-- C17 amended, on the arguments `authorised_peer_uid=1000` and the like. -/
theorem parse_options_identity_digits_witness :
    (∀ c ∈ "1000".toList, isdigit c = true) ∧
    parse_options ⟨16, 16, 16, 5, 32, 16, 16⟩ blank_options
        ["daemon".toList, token "authorised_peer_uid".toList "1000".toList]
      = (true, { blank_options with authorised_peer_uid := 1000 }) :=
  ⟨by decide,
    (parse_options_identity_digits ⟨16, 16, 16, 5, 32, 16, 16⟩ blank_options "daemon".toList
      "1000".toList (by decide)).1⟩

/-! ## String fields with a length test -/

/-- The branch for `socket_path`, on the argument `socket_path=value`. -/
theorem parse_argument_socket_path_token (sz : capacities) (options : ipc_options)
    (q : List Char) :
    parse_argument sz options (token "socket_path".toList q) =
      (if strlen q ≥ to_uint8 sz.socket_path then none
        else some { options with
          socket_path := strncpy (memset options.socket_path NUL (to_uint8 sz.socket_path))
            q (to_size_t (to_uint8 sz.socket_path - 1)) }) := by
  exact parse_argument_socket_path sz options _ q _
    (strchr_token q _ (by decide)) (take_token _ _) (drop_token _ _)

/-- The branch for `log_file`, on the argument `log_file=value`. -/
theorem parse_argument_log_file_token (sz : capacities) (options : ipc_options)
    (q : List Char) :
    parse_argument sz options (token "log_file".toList q) =
      (if strlen q ≥ to_uint16 sz.log_file then none
        else some { options with
          log_file := strncpy (memset options.log_file NUL (to_uint16 sz.log_file))
            q (to_size_t (to_uint16 sz.log_file - 1)) }) := by
  exact parse_argument_log_file sz options _ q _
    (strchr_token q _ (by decide)) (take_token _ _) (drop_token _ _)

/-- The branch for `authorised_peer_process_name`, on the argument
`authorised_peer_process_name=value`. -/
theorem parse_argument_process_name_token (sz : capacities) (options : ipc_options)
    (q : List Char) :
    parse_argument sz options (token "authorised_peer_process_name".toList q) =
      (if strlen q < sz.authorised_peer_process_name then
          some { options with
            authorised_peer_process_name :=
              strncpy
                (memset options.authorised_peer_process_name NUL
                  sz.authorised_peer_process_name)
                q (to_size_t (sz.authorised_peer_process_name - 1)) }
        else none) := by
  exact parse_argument_authorised_peer_process_name sz options _ q _
    (strchr_token q _ (by decide)) (take_token _ _) (drop_token _ _)

/-- The branch for `authorised_peer_cli_args`, on the argument
`authorised_peer_cli_args=value`. -/
theorem parse_argument_cli_args_token (sz : capacities) (options : ipc_options)
    (q : List Char) :
    parse_argument sz options (token "authorised_peer_cli_args".toList q) =
      (if strlen q < sz.authorised_peer_cli_args then
          some { options with
            authorised_peer_cli_args :=
              strncpy (memset options.authorised_peer_cli_args NUL sz.authorised_peer_cli_args)
                q (to_size_t (sz.authorised_peer_cli_args - 1)) }
        else none) := by
  exact parse_argument_authorised_peer_cli_args sz options _ q _
    (strchr_token q _ (by decide)) (take_token _ _) (drop_token _ _)

/-- The branch for `socket_permissions`, on the argument `socket_permissions=value`. -/
theorem parse_argument_socket_permissions_token (sz : capacities) (options : ipc_options)
    (q : List Char) :
    parse_argument sz options (token "socket_permissions".toList q) =
      (if strlen q = to_size_t (sz.socket_permissions - 1) ∧
            digits_loop q (to_int sz.socket_permissions - 1) then
          some { options with
            socket_permissions :=
              strncpy (memset options.socket_permissions NUL sz.socket_permissions) q
                (to_size_t (sz.socket_permissions - 1)) }
        else none) := by
  exact parse_argument_socket_permissions sz options _ q _
    (strchr_token q _ (by decide)) (take_token _ _) (drop_token _ _)

/-- C14. For the keys `socket_path`, `log_file`, `authorised_peer_process_name` and
`authorised_peer_cli_args` and every value, when the size of each array fits the type that
holds it in `parse_options` (`uint8_t`, `uint16_t`, `size_t`, `size_t`): `parse_options`
accepts `key=value` exactly when the length of the value is below the size of the array, and
then the string stored in the field is the value. -/
theorem parse_options_bounded_strings (sz : capacities) (options : ipc_options)
    (prog q : List Char) (h1 : sz.socket_path < 2 ^ 8) (h2 : sz.log_file < 2 ^ 16)
    (h3 : sz.authorised_peer_process_name ≤ 2 ^ 64)
    (h4 : sz.authorised_peer_cli_args ≤ 2 ^ 64) :
    (((parse_options sz options [prog, token "socket_path".toList q]).1 = true
        ↔ strlen q < sz.socket_path) ∧
      ((parse_options sz options [prog, token "socket_path".toList q]).1 = true →
        c_string (parse_options sz options [prog, token "socket_path".toList q]).2.socket_path
          = c_string q)) ∧
    (((parse_options sz options [prog, token "log_file".toList q]).1 = true
        ↔ strlen q < sz.log_file) ∧
      ((parse_options sz options [prog, token "log_file".toList q]).1 = true →
        c_string (parse_options sz options [prog, token "log_file".toList q]).2.log_file
          = c_string q)) ∧
    (((parse_options sz options [prog, token "authorised_peer_process_name".toList q]).1 = true
        ↔ strlen q < sz.authorised_peer_process_name) ∧
      ((parse_options sz options [prog, token "authorised_peer_process_name".toList q]).1 = true →
        c_string (parse_options sz options
            [prog, token "authorised_peer_process_name".toList q]).2.authorised_peer_process_name
          = c_string q)) ∧
    (((parse_options sz options [prog, token "authorised_peer_cli_args".toList q]).1 = true
        ↔ strlen q < sz.authorised_peer_cli_args) ∧
      ((parse_options sz options [prog, token "authorised_peer_cli_args".toList q]).1 = true →
        c_string (parse_options sz options
            [prog, token "authorised_peer_cli_args".toList q]).2.authorised_peer_cli_args
          = c_string q)) := by
  have e1 : to_uint8 sz.socket_path = sz.socket_path := by
    rw [to_uint8_nat]; omega
  have e2 : to_uint16 sz.log_file = sz.log_file := by
    rw [to_uint16_nat]; omega
  refine ⟨?_, ?_, ?_, ?_⟩
  · rw [parse_options_single, parse_argument_socket_path_token, e1]
    by_cases hl : strlen q ≥ sz.socket_path
    · rw [if_pos hl]
      exact ⟨⟨fun h => absurd h Bool.false_ne_true, fun h => absurd hl (by omega)⟩,
        fun h => absurd h Bool.false_ne_true⟩
    · rw [if_neg hl]
      refine ⟨⟨fun _ => by omega, fun _ => rfl⟩, fun _ => ?_⟩
      rw [to_size_t_pred _ (by omega) (by omega)]
      exact c_string_strncpy_memset _ _ _ _ (by omega) (by omega)
  · rw [parse_options_single, parse_argument_log_file_token, e2]
    by_cases hl : strlen q ≥ sz.log_file
    · rw [if_pos hl]
      exact ⟨⟨fun h => absurd h Bool.false_ne_true, fun h => absurd hl (by omega)⟩,
        fun h => absurd h Bool.false_ne_true⟩
    · rw [if_neg hl]
      refine ⟨⟨fun _ => by omega, fun _ => rfl⟩, fun _ => ?_⟩
      rw [to_size_t_pred _ (by omega) (by omega)]
      exact c_string_strncpy_memset _ _ _ _ (by omega) (by omega)
  · rw [parse_options_single, parse_argument_process_name_token]
    by_cases hl : strlen q < sz.authorised_peer_process_name
    · rw [if_pos hl]
      refine ⟨⟨fun _ => hl, fun _ => rfl⟩, fun _ => ?_⟩
      rw [to_size_t_pred _ (by omega) h3]
      exact c_string_strncpy_memset _ _ _ _ (by omega) (by omega)
    · rw [if_neg hl]
      exact ⟨⟨fun h => absurd h Bool.false_ne_true, fun h => absurd h hl⟩,
        fun h => absurd h Bool.false_ne_true⟩
  · rw [parse_options_single, parse_argument_cli_args_token]
    by_cases hl : strlen q < sz.authorised_peer_cli_args
    · rw [if_pos hl]
      refine ⟨⟨fun _ => hl, fun _ => rfl⟩, fun _ => ?_⟩
      rw [to_size_t_pred _ (by omega) h4]
      exact c_string_strncpy_memset _ _ _ _ (by omega) (by omega)
    · rw [if_neg hl]
      exact ⟨⟨fun h => absurd h Bool.false_ne_true, fun h => absurd h hl⟩,
        fun h => absurd h Bool.false_ne_true⟩

/-- C14, with arrays of 16 bytes and the value `/tmp/sock`. -/
theorem parse_options_bounded_strings_witness :
    ((16 : Nat) < 2 ^ 8 ∧ (16 : Nat) < 2 ^ 16 ∧ (16 : Nat) ≤ 2 ^ 64 ∧
      (16 : Nat) ≤ 2 ^ 64) ∧
    ((parse_options ⟨16, 16, 16, 5, 32, 16, 16⟩ blank_options
        ["daemon".toList, token "socket_path".toList "/tmp/sock".toList]).1 = true
      ↔ strlen "/tmp/sock".toList < 16) ∧
    c_string (parse_options ⟨16, 16, 16, 5, 32, 16, 16⟩ blank_options
        ["daemon".toList, token "socket_path".toList "/tmp/sock".toList]).2.socket_path
      = "/tmp/sock".toList :=
  ⟨⟨by decide, by decide, by decide, by decide⟩,
    (parse_options_bounded_strings ⟨16, 16, 16, 5, 32, 16, 16⟩ blank_options "daemon".toList
      "/tmp/sock".toList (by decide) (by decide) (by decide) (by decide)).1.1,
    by decide⟩

/-- C16. For every value, when the size of the `socket_permissions` array is positive and
fits an `int`: `parse_options` accepts `socket_permissions=value` exactly when the value has
one character less than the size of the array and all its characters are decimal digits, and
then the string stored in the field is the value. -/
theorem parse_options_socket_permissions (sz : capacities) (options : ipc_options)
    (prog q : List Char) (h0 : 0 < sz.socket_permissions) (h1 : sz.socket_permissions < 2 ^ 31) :
    ((parse_options sz options [prog, token "socket_permissions".toList q]).1 = true
      ↔ (strlen q = sz.socket_permissions - 1 ∧ ∀ c ∈ c_string q, isdigit c = true)) ∧
    ((parse_options sz options [prog, token "socket_permissions".toList q]).1 = true →
      c_string (parse_options sz options
          [prog, token "socket_permissions".toList q]).2.socket_permissions
        = c_string q) := by
  have e1 : to_size_t ((sz.socket_permissions : Int) - 1) = sz.socket_permissions - 1 :=
    to_size_t_pred _ h0 (by omega)
  have e2 : to_int sz.socket_permissions = sz.socket_permissions := to_int_nat _ h1
  have hiff : (strlen q = sz.socket_permissions - 1 ∧
        digits_loop q ((sz.socket_permissions : Int) - 1) = true)
      ↔ (strlen q = sz.socket_permissions - 1 ∧ ∀ c ∈ c_string q, isdigit c = true) := by
    constructor
    · rintro ⟨hl, hd⟩
      have : ((sz.socket_permissions : Int) - 1) = (strlen q : Int) := by omega
      rw [this, digits_loop_strlen] at hd
      exact ⟨hl, hd⟩
    · rintro ⟨hl, hd⟩
      have : ((sz.socket_permissions : Int) - 1) = (strlen q : Int) := by omega
      rw [this, digits_loop_strlen]
      exact ⟨hl, hd⟩
  rw [parse_options_single, parse_argument_socket_permissions_token, e1, e2]
  by_cases hc : strlen q = sz.socket_permissions - 1 ∧
      digits_loop q ((sz.socket_permissions : Int) - 1) = true
  · rw [if_pos hc]
    refine ⟨⟨fun _ => hiff.mp hc, fun _ => rfl⟩, fun _ => ?_⟩
    exact c_string_strncpy_memset _ _ _ _ (by omega) (by omega)
  · rw [if_neg hc]
    exact ⟨⟨fun h => absurd h Bool.false_ne_true, fun h => absurd (hiff.mpr h) hc⟩,
      fun h => absurd h Bool.false_ne_true⟩

/-- C16, with an array of 5 bytes and the value `0660`. -/
theorem parse_options_socket_permissions_witness :
    (0 < 5 ∧ 5 < 2 ^ 31) ∧
    ((parse_options ⟨16, 16, 16, 5, 32, 16, 16⟩ blank_options
        ["daemon".toList, token "socket_permissions".toList "0660".toList]).1 = true
      ↔ (strlen "0660".toList = 5 - 1 ∧ ∀ c ∈ c_string "0660".toList, isdigit c = true)) ∧
    c_string (parse_options ⟨16, 16, 16, 5, 32, 16, 16⟩ blank_options
        ["daemon".toList, token "socket_permissions".toList "0660".toList]).2.socket_permissions
      = "0660".toList :=
  ⟨⟨by decide, by decide⟩,
    (parse_options_socket_permissions ⟨16, 16, 16, 5, 32, 16, 16⟩ blank_options "daemon".toList
      "0660".toList (by decide) (by decide)).1,
    by decide⟩

/-! ## What an accepted argument changes -/

/-- An accepted argument has a separator and a recognised key in front of it. -/
theorem parse_argument_some_key (sz : capacities) (options updated : ipc_options)
    (arg : List Char) (hp : parse_argument sz options arg = some updated) :
    ∃ i : Nat, strchr arg (Char.ofNat 61) = some i ∧ arg.take i = key_of arg ∧
      key_of arg ∈ recognised_keys := by
  have hsep : Char.ofNat 61 ≠ NUL := by decide
  cases hs : strchr arg (Char.ofNat 61) with
  | none =>
    have : parse_argument sz options arg = none := by simp [parse_argument, hs]
    rw [this] at hp
    cases hp
  | some i =>
    refine ⟨i, rfl, (strchr_eq_some _ hsep arg i hs).2, ?_⟩
    by_contra hmem
    rw [parse_argument_unknown sz options arg (Or.inr hmem)] at hp
    cases hp

/-- What an accepted argument does to the record: one field, the one named by the key of the
argument, is assigned; where a string is copied, `q` is the value of the argument. -/
theorem parse_argument_inv (sz : capacities) (options updated : ipc_options) (arg : List Char)
    (hp : parse_argument sz options arg = some updated) :
    ∃ q : List Char,
    (key_of arg = "mq_name".toList ∧
      updated = { options with
        mq_name := strncpy (memset options.mq_name NUL (to_uint16 sz.mq_name)) q
          (to_size_t (to_uint16 sz.mq_name - 1)) }) ∨
    (key_of arg = "socket_path".toList ∧
      strlen q < to_uint8 sz.socket_path ∧
      updated = { options with
        socket_path := strncpy (memset options.socket_path NUL (to_uint8 sz.socket_path)) q
          (to_size_t (to_uint8 sz.socket_path - 1)) }) ∨
    (key_of arg = "log_file".toList ∧
      strlen q < to_uint16 sz.log_file ∧
      updated = { options with
        log_file := strncpy (memset options.log_file NUL (to_uint16 sz.log_file)) q
          (to_size_t (to_uint16 sz.log_file - 1)) }) ∨
    (key_of arg = "domain".toList ∧
      ∃ v, updated = { options with domain := v }) ∨
    (key_of arg = "protocol".toList ∧
      ∃ v, updated = { options with protocol := v }) ∨
    (key_of arg = "port".toList ∧
      ∃ v, updated = { options with port := v }) ∨
    (key_of arg = "max_connections".toList ∧
      ∃ v, updated = { options with max_connections := v }) ∨
    (key_of arg = "socket_permissions".toList ∧
      updated = { options with
        socket_permissions :=
          strncpy (memset options.socket_permissions NUL sz.socket_permissions) q
            (to_size_t (sz.socket_permissions - 1)) }) ∨
    (key_of arg = "authorised_peer_username".toList ∧
      updated = { options with
        authorised_peer_username :=
          strncpy (memset options.authorised_peer_username NUL sz.authorised_peer_username) q
            (to_size_t (sz.authorised_peer_username - 1)) }) ∨
    (key_of arg = "authorised_peer_uid".toList ∧
      ∃ v, updated = { options with authorised_peer_uid := v }) ∨
    (key_of arg = "authorised_peer_gid".toList ∧
      ∃ v, updated = { options with authorised_peer_gid := v }) ∨
    (key_of arg = "authorised_peer_pid".toList ∧
      ∃ v, updated = { options with authorised_peer_pid := v }) ∨
    (key_of arg = "authorised_peer_process_name".toList ∧
      updated = { options with
        authorised_peer_process_name :=
          strncpy
            (memset options.authorised_peer_process_name NUL sz.authorised_peer_process_name)
            q (to_size_t (sz.authorised_peer_process_name - 1)) }) ∨
    (key_of arg = "authorised_peer_cli_args".toList ∧
      updated = { options with
        authorised_peer_cli_args :=
          strncpy (memset options.authorised_peer_cli_args NUL sz.authorised_peer_cli_args) q
            (to_size_t (sz.authorised_peer_cli_args - 1)) }) := by
  obtain ⟨i, hs, hk, hmem⟩ := parse_argument_some_key sz options updated arg hp
  refine ⟨arg.drop (i + 1), ?_⟩
  simp only [recognised_keys, List.mem_cons, List.mem_singleton, List.mem_nil_iff,
    or_false] at hmem
  rcases hmem with hK | hK | hK | hK | hK | hK | hK | hK | hK | hK | hK | hK | hK | hK
  · rw [parse_argument_mq_name sz options arg _ i hs (hk.trans hK) rfl] at hp
    split_ifs at hp
    left
    exact ⟨hK, (Option.some.inj hp).symm⟩
  · rw [parse_argument_socket_path sz options arg _ i hs (hk.trans hK) rfl] at hp
    split_ifs at hp with hc
    right
    left
    exact ⟨hK, by omega, (Option.some.inj hp).symm⟩
  · rw [parse_argument_log_file sz options arg _ i hs (hk.trans hK) rfl] at hp
    split_ifs at hp with hc
    iterate 2 right
    left
    exact ⟨hK, by omega, (Option.some.inj hp).symm⟩
  · rw [parse_argument_domain sz options arg _ i hs (hk.trans hK) rfl] at hp
    split_ifs at hp
    · iterate 3 right
      left
      exact ⟨hK, _, (Option.some.inj hp).symm⟩
    · iterate 3 right
      left
      exact ⟨hK, _, (Option.some.inj hp).symm⟩
  · rw [parse_argument_protocol sz options arg _ i hs (hk.trans hK) rfl] at hp
    split_ifs at hp
    iterate 4 right
    left
    exact ⟨hK, _, (Option.some.inj hp).symm⟩
  · rw [parse_argument_port sz options arg _ i hs (hk.trans hK) rfl] at hp
    split_ifs at hp
    iterate 5 right
    left
    exact ⟨hK, _, (Option.some.inj hp).symm⟩
  · rw [parse_argument_max_connections sz options arg _ i hs (hk.trans hK) rfl] at hp
    split_ifs at hp
    iterate 6 right
    left
    exact ⟨hK, _, (Option.some.inj hp).symm⟩
  · rw [parse_argument_socket_permissions sz options arg _ i hs (hk.trans hK) rfl] at hp
    split_ifs at hp
    iterate 7 right
    left
    exact ⟨hK, (Option.some.inj hp).symm⟩
  · rw [parse_argument_authorised_peer_username sz options arg _ i hs (hk.trans hK) rfl] at hp
    split_ifs at hp
    iterate 8 right
    left
    exact ⟨hK, (Option.some.inj hp).symm⟩
  · rw [parse_argument_authorised_peer_uid sz options arg _ i hs (hk.trans hK) rfl] at hp
    split_ifs at hp
    iterate 9 right
    left
    exact ⟨hK, _, (Option.some.inj hp).symm⟩
  · rw [parse_argument_authorised_peer_gid sz options arg _ i hs (hk.trans hK) rfl] at hp
    split_ifs at hp
    iterate 10 right
    left
    exact ⟨hK, _, (Option.some.inj hp).symm⟩
  · rw [parse_argument_authorised_peer_pid sz options arg _ i hs (hk.trans hK) rfl] at hp
    split_ifs at hp
    iterate 11 right
    left
    exact ⟨hK, _, (Option.some.inj hp).symm⟩
  · rw [parse_argument_authorised_peer_process_name sz options arg _ i hs (hk.trans hK) rfl] at hp
    split_ifs at hp
    iterate 12 right
    left
    exact ⟨hK, (Option.some.inj hp).symm⟩
  · rw [parse_argument_authorised_peer_cli_args sz options arg _ i hs (hk.trans hK) rfl] at hp
    split_ifs at hp
    iterate 13 right
    exact ⟨hK, (Option.some.inj hp).symm⟩

/-- An accepted argument leaves every field but the one named by its key as it was. -/
theorem parse_argument_frame (sz : capacities) (options updated : ipc_options)
    (arg : List Char) (hp : parse_argument sz options arg = some updated) :
    (key_of arg ≠ "mq_name".toList → updated.mq_name = options.mq_name) ∧
    (key_of arg ≠ "socket_path".toList → updated.socket_path = options.socket_path) ∧
    (key_of arg ≠ "log_file".toList → updated.log_file = options.log_file) ∧
    (key_of arg ≠ "domain".toList → updated.domain = options.domain) ∧
    (key_of arg ≠ "protocol".toList → updated.protocol = options.protocol) ∧
    (key_of arg ≠ "port".toList → updated.port = options.port) ∧
    (key_of arg ≠ "max_connections".toList → updated.max_connections = options.max_connections) ∧
    (key_of arg ≠ "socket_permissions".toList →
      updated.socket_permissions = options.socket_permissions) ∧
    (key_of arg ≠ "authorised_peer_username".toList →
      updated.authorised_peer_username = options.authorised_peer_username) ∧
    (key_of arg ≠ "authorised_peer_uid".toList →
      updated.authorised_peer_uid = options.authorised_peer_uid) ∧
    (key_of arg ≠ "authorised_peer_gid".toList →
      updated.authorised_peer_gid = options.authorised_peer_gid) ∧
    (key_of arg ≠ "authorised_peer_pid".toList →
      updated.authorised_peer_pid = options.authorised_peer_pid) ∧
    (key_of arg ≠ "authorised_peer_process_name".toList →
      updated.authorised_peer_process_name = options.authorised_peer_process_name) ∧
    (key_of arg ≠ "authorised_peer_cli_args".toList →
      updated.authorised_peer_cli_args = options.authorised_peer_cli_args) ∧
    updated.verbosity = options.verbosity := by
  obtain ⟨q, hq⟩ := parse_argument_inv sz options updated arg hp
  rcases hq with
    ⟨hK, rfl⟩ | ⟨hK, _, rfl⟩ | ⟨hK, _, rfl⟩ | ⟨hK, v, rfl⟩ | ⟨hK, v, rfl⟩ |
    ⟨hK, v, rfl⟩ | ⟨hK, v, rfl⟩ | ⟨hK, rfl⟩ | ⟨hK, rfl⟩ | ⟨hK, v, rfl⟩ |
    ⟨hK, v, rfl⟩ | ⟨hK, v, rfl⟩ | ⟨hK, rfl⟩ | ⟨hK, rfl⟩
  all_goals
    refine ⟨?_, ?_, ?_, ?_, ?_, ?_, ?_, ?_, ?_, ?_, ?_, ?_, ?_, ?_, ?_⟩ <;>
      first
        | rfl
        | (intro hne; first | rfl | exact absurd hK hne)

/-- C20. For every record and every single argument that `parse_options` accepts, every field
of the record other than the one named by the key of the argument (the text before its first
`=`) is unchanged; `verbosity`, which no key names, is never changed. -/
theorem parse_options_frame (sz : capacities) (options : ipc_options) (prog arg : List Char)
    (h : (parse_options sz options [prog, arg]).1 = true) :
    (key_of arg ≠ "mq_name".toList →
      (parse_options sz options [prog, arg]).2.mq_name = options.mq_name) ∧
    (key_of arg ≠ "socket_path".toList →
      (parse_options sz options [prog, arg]).2.socket_path = options.socket_path) ∧
    (key_of arg ≠ "log_file".toList →
      (parse_options sz options [prog, arg]).2.log_file = options.log_file) ∧
    (key_of arg ≠ "domain".toList →
      (parse_options sz options [prog, arg]).2.domain = options.domain) ∧
    (key_of arg ≠ "protocol".toList →
      (parse_options sz options [prog, arg]).2.protocol = options.protocol) ∧
    (key_of arg ≠ "port".toList → (parse_options sz options [prog, arg]).2.port = options.port) ∧
    (key_of arg ≠ "max_connections".toList →
      (parse_options sz options [prog, arg]).2.max_connections = options.max_connections) ∧
    (key_of arg ≠ "socket_permissions".toList →
      (parse_options sz options [prog, arg]).2.socket_permissions = options.socket_permissions) ∧
    (key_of arg ≠ "authorised_peer_username".toList →
      (parse_options sz options [prog, arg]).2.authorised_peer_username
        = options.authorised_peer_username) ∧
    (key_of arg ≠ "authorised_peer_uid".toList →
      (parse_options sz options [prog, arg]).2.authorised_peer_uid = options.authorised_peer_uid) ∧
    (key_of arg ≠ "authorised_peer_gid".toList →
      (parse_options sz options [prog, arg]).2.authorised_peer_gid = options.authorised_peer_gid) ∧
    (key_of arg ≠ "authorised_peer_pid".toList →
      (parse_options sz options [prog, arg]).2.authorised_peer_pid = options.authorised_peer_pid) ∧
    (key_of arg ≠ "authorised_peer_process_name".toList →
      (parse_options sz options [prog, arg]).2.authorised_peer_process_name
        = options.authorised_peer_process_name) ∧
    (key_of arg ≠ "authorised_peer_cli_args".toList →
      (parse_options sz options [prog, arg]).2.authorised_peer_cli_args
        = options.authorised_peer_cli_args) ∧
    (parse_options sz options [prog, arg]).2.verbosity = options.verbosity := by
  cases hp : parse_argument sz options arg with
  | none =>
    rw [parse_options_single_none sz options prog arg hp] at h
    exact absurd h Bool.false_ne_true
  | some updated =>
    rw [parse_options_single_some sz options updated prog arg hp]
    exact parse_argument_frame sz options updated arg hp

/-- C20, on the argument `authorised_peer_uid=1000` and a record of defaults: the domain, the
port and the two other identity fields keep their values. -/
theorem parse_options_frame_witness :
    (parse_options ⟨16, 16, 16, 5, 32, 16, 16⟩
        { blank_options with
          domain := 1, port := 8080, authorised_peer_gid := 100, authorised_peer_pid := 1 }
        ["daemon".toList, token "authorised_peer_uid".toList "1000".toList]).1 = true ∧
    (parse_options ⟨16, 16, 16, 5, 32, 16, 16⟩
        { blank_options with
          domain := 1, port := 8080, authorised_peer_gid := 100, authorised_peer_pid := 1 }
        ["daemon".toList, token "authorised_peer_uid".toList "1000".toList]).2.authorised_peer_gid
      = 100 ∧
    (parse_options ⟨16, 16, 16, 5, 32, 16, 16⟩
        { blank_options with
          domain := 1, port := 8080, authorised_peer_gid := 100, authorised_peer_pid := 1 }
        ["daemon".toList, token "authorised_peer_uid".toList "1000".toList]).2.verbosity
      = 0 :=
  ⟨by decide,
    (parse_options_frame ⟨16, 16, 16, 5, 32, 16, 16⟩
      { blank_options with
        domain := 1, port := 8080, authorised_peer_gid := 100, authorised_peer_pid := 1 }
      "daemon".toList (token "authorised_peer_uid".toList "1000".toList)
      (by decide)).2.2.2.2.2.2.2.2.2.2.1 (by decide),
    (parse_options_frame ⟨16, 16, 16, 5, 32, 16, 16⟩
      { blank_options with
        domain := 1, port := 8080, authorised_peer_gid := 100, authorised_peer_pid := 1 }
      "daemon".toList (token "authorised_peer_uid".toList "1000".toList)
      (by decide)).2.2.2.2.2.2.2.2.2.2.2.2.2.2⟩

/-! ## Null-termination -/

/-- An array that holds a NUL within its size has a positive size. -/
theorem terminated_pos (cap : Nat) (buf : List Char) (h : terminated cap buf) : 0 < cap := by
  unfold terminated at h
  rcases Nat.eq_zero_or_pos cap with h0 | h0
  · rw [h0, List.take_zero] at h
    cases h
  · exact h0

/-- The count passed to `strncpy`, the size less one, is below the size. -/
theorem to_size_t_pred_lt (x : Nat) (h : 0 < x) : to_size_t ((x : Int) - 1) < x := by
  unfold to_size_t
  omega

/-- An accepted argument keeps every character array of the record null-terminated. -/
theorem parse_argument_terminated (sz : capacities) (options updated : ipc_options)
    (arg : List Char) (hmq : sz.mq_name < 2 ^ 16)
    (hp : parse_argument sz options arg = some updated) (ht : null_terminated sz options) :
    null_terminated sz updated := by
  obtain ⟨t1, t2, t3, t4, t5, t6, t7⟩ := ht
  obtain ⟨q, hq⟩ := parse_argument_inv sz options updated arg hp
  rcases hq with
    ⟨_, rfl⟩ | ⟨_, hl, rfl⟩ | ⟨_, hl, rfl⟩ | ⟨_, v, rfl⟩ | ⟨_, v, rfl⟩ |
    ⟨_, v, rfl⟩ | ⟨_, v, rfl⟩ | ⟨_, rfl⟩ | ⟨_, rfl⟩ | ⟨_, v, rfl⟩ |
    ⟨_, v, rfl⟩ | ⟨_, v, rfl⟩ | ⟨_, rfl⟩ | ⟨_, rfl⟩
  · have hsize : to_uint16 sz.mq_name = sz.mq_name := by
      rw [to_uint16_nat]; omega
    have hpos := terminated_pos _ _ t1
    refine ⟨?_, t2, t3, t4, t5, t6, t7⟩
    exact terminated_strncpy_memset _ _ _ _ _
      (to_size_t_pred_lt _ (by omega)) (by omega)
  · have hsize : to_uint8 sz.socket_path ≤ sz.socket_path := by
      rw [to_uint8_nat]; exact Nat.mod_le _ _
    refine ⟨t1, ?_, t3, t4, t5, t6, t7⟩
    exact terminated_strncpy_memset _ _ _ _ _ (to_size_t_pred_lt _ (by omega)) hsize
  · have hsize : to_uint16 sz.log_file ≤ sz.log_file := by
      rw [to_uint16_nat]; exact Nat.mod_le _ _
    refine ⟨t1, t2, ?_, t4, t5, t6, t7⟩
    exact terminated_strncpy_memset _ _ _ _ _ (to_size_t_pred_lt _ (by omega)) hsize
  · exact ⟨t1, t2, t3, t4, t5, t6, t7⟩
  · exact ⟨t1, t2, t3, t4, t5, t6, t7⟩
  · exact ⟨t1, t2, t3, t4, t5, t6, t7⟩
  · exact ⟨t1, t2, t3, t4, t5, t6, t7⟩
  · refine ⟨t1, t2, t3, ?_, t5, t6, t7⟩
    exact terminated_strncpy_memset _ _ _ _ _
      (to_size_t_pred_lt _ (terminated_pos _ _ t4)) (Nat.le_refl _)
  · refine ⟨t1, t2, t3, t4, ?_, t6, t7⟩
    exact terminated_strncpy_memset _ _ _ _ _
      (to_size_t_pred_lt _ (terminated_pos _ _ t5)) (Nat.le_refl _)
  · exact ⟨t1, t2, t3, t4, t5, t6, t7⟩
  · exact ⟨t1, t2, t3, t4, t5, t6, t7⟩
  · exact ⟨t1, t2, t3, t4, t5, t6, t7⟩
  · refine ⟨t1, t2, t3, t4, t5, ?_, t7⟩
    exact terminated_strncpy_memset _ _ _ _ _
      (to_size_t_pred_lt _ (terminated_pos _ _ t6)) (Nat.le_refl _)
  · refine ⟨t1, t2, t3, t4, t5, t6, ?_⟩
    exact terminated_strncpy_memset _ _ _ _ _
      (to_size_t_pred_lt _ (terminated_pos _ _ t7)) (Nat.le_refl _)

/-- The loop over the arguments keeps every character array of the record null-terminated,
whether it ends in success or in failure. -/
theorem parse_arguments_terminated (sz : capacities) (hmq : sz.mq_name < 2 ^ 16) :
    ∀ (args : List (List Char)) (options : ipc_options), null_terminated sz options →
      null_terminated sz (parse_arguments sz options args).2 := by
  intro args
  induction args with
  | nil => intro options ht; exact ht
  | cons arg rest ih =>
    intro options ht
    cases hp : parse_argument sz options arg with
    | none =>
      have : parse_arguments sz options (arg :: rest) = (false, options) := by
        simp [parse_arguments, hp]
      rw [this]
      exact ht
    | some updated =>
      have : parse_arguments sz options (arg :: rest) = parse_arguments sz updated rest := by
        simp [parse_arguments, hp]
      rw [this]
      exact ih updated (parse_argument_terminated sz options updated arg hmq hp ht)

/-- C15. When the size of the `mq_name` array fits the `uint16_t` that holds it in
`parse_options`: for every record in which each character array (`mq_name`, `socket_path`,
`log_file`, `socket_permissions`, `authorised_peer_username`, `authorised_peer_process_name`,
`authorised_peer_cli_args`) holds a NUL within its size and for every argument list, each of
these arrays still holds a NUL within its size after `parse_options`, whether it returns
success or failure. -/
theorem parse_options_null_terminated (sz : capacities) (options : ipc_options)
    (argv : List (List Char)) (hmq : sz.mq_name < 2 ^ 16) (ht : null_terminated sz options) :
    null_terminated sz (parse_options sz options argv).2 :=
  parse_arguments_terminated sz hmq _ options ht

/-- C15, on arrays filled with NULs and the arguments `mq_name=/a-long-queue-name`,
`socket_path=/tmp/s` and `verbose`: the first value is cut to fit, the last argument makes
the parsing fail, and the arrays stay null-terminated. -/
theorem parse_options_null_terminated_witness :
    ((16 : Nat) < 2 ^ 16 ∧
      null_terminated ⟨16, 16, 16, 5, 32, 16, 16⟩
        { blank_options with
          mq_name := List.replicate 16 NUL, socket_path := List.replicate 16 NUL,
          log_file := List.replicate 16 NUL, socket_permissions := List.replicate 5 NUL,
          authorised_peer_username := List.replicate 32 NUL,
          authorised_peer_process_name := List.replicate 16 NUL,
          authorised_peer_cli_args := List.replicate 16 NUL }) ∧
    null_terminated ⟨16, 16, 16, 5, 32, 16, 16⟩
      (parse_options ⟨16, 16, 16, 5, 32, 16, 16⟩
        { blank_options with
          mq_name := List.replicate 16 NUL, socket_path := List.replicate 16 NUL,
          log_file := List.replicate 16 NUL, socket_permissions := List.replicate 5 NUL,
          authorised_peer_username := List.replicate 32 NUL,
          authorised_peer_process_name := List.replicate 16 NUL,
          authorised_peer_cli_args := List.replicate 16 NUL }
        ["daemon".toList, token "mq_name".toList "/a-long-queue-name".toList,
          token "socket_path".toList "/tmp/s".toList, "verbose".toList]).2 :=
  ⟨⟨by decide, by unfold null_terminated terminated; decide⟩,
    parse_options_null_terminated ⟨16, 16, 16, 5, 32, 16, 16⟩
      { blank_options with
        mq_name := List.replicate 16 NUL, socket_path := List.replicate 16 NUL,
        log_file := List.replicate 16 NUL, socket_permissions := List.replicate 5 NUL,
        authorised_peer_username := List.replicate 32 NUL,
        authorised_peer_process_name := List.replicate 16 NUL,
        authorised_peer_cli_args := List.replicate 16 NUL }
      ["daemon".toList, token "mq_name".toList "/a-long-queue-name".toList,
        token "socket_path".toList "/tmp/s".toList, "verbose".toList]
      (by decide) (by unfold null_terminated terminated; decide)⟩

/-! ## The counter at its wrap -/

/-- C21 as stated fails: with three slots and the counter at `2 ^ 32 - 1`, a successful
iteration uses offset 0 and leaves the counter at 0, so the next iteration uses offset 0
again, not offset 1. -/
theorem offset_repeats_at_wrap :
    offsets (iteration { log := 0 } 3
      { initial_state 3 with count := 4294967295 } (outcome.success 7).env).2 = [0] ∧
    (iteration { log := 0 } 3
      { initial_state 3 with count := 4294967295 } (outcome.success 7).env).1.count = 0 ∧
    offsets (iteration { log := 0 } 3
      (iteration { log := 0 } 3
        { initial_state 3 with count := 4294967295 } (outcome.success 7).env).1
      (outcome.success 8).env).2 = [0] ∧
    (0 + 1) % 3 ≠ 0 := by
  decide

/-- C21, amended. For every value of the 32-bit counter and every `nb_cnx > 0`, an iteration
that succeeds uses the offset `count % nb_cnx`, and the next iteration, whatever its outcome,
uses that offset plus one modulo `nb_cnx`, provided the counter is not at `2 ^ 32 - 1` or
`nb_cnx` divides `2 ^ 32`; from `2 ^ 32 - 1` the counter wraps to 0 and the next offset is 0. -/
theorem offset_after_success (ctx : server_context) (nb_cnx : Nat) (st : loop_state)
    (new_client : Handle) (next : outcome) (h0 : 0 < nb_cnx) :
    offsets (iteration ctx nb_cnx st (outcome.success new_client).env).2
      = [st.count % nb_cnx] ∧
    (st.count < 2 ^ 32 - 1 ∨ nb_cnx ∣ 2 ^ 32 →
      offsets (iteration ctx nb_cnx
          (iteration ctx nb_cnx st (outcome.success new_client).env).1 next.env).2
        = [(st.count % nb_cnx + 1) % nb_cnx]) ∧
    (st.count = 2 ^ 32 - 1 →
      offsets (iteration ctx nb_cnx
          (iteration ctx nb_cnx st (outcome.success new_client).env).1 next.env).2
        = [0]) := by
  have hcount : (iteration ctx nb_cnx st (outcome.success new_client).env).1.count
      = (st.count + 1) % 2 ^ 32 := by
    rw [iteration_success ctx nb_cnx h0]
    rfl
  have hstep : (st.count + 1) % nb_cnx = (st.count % nb_cnx + 1) % nb_cnx :=
    (Nat.mod_add_mod _ _ _).symm
  refine ⟨iteration_offsets ctx nb_cnx h0 st _, ?_, ?_⟩
  · intro h
    rw [iteration_offsets ctx nb_cnx h0, hcount]
    rcases h with h | h
    · have e : (st.count + 1) % 2 ^ 32 = st.count + 1 := Nat.mod_eq_of_lt (by omega)
      rw [e, hstep]
    · rw [Nat.mod_mod_of_dvd _ h, hstep]
  · intro h
    rw [iteration_offsets ctx nb_cnx h0, hcount, h]
    have : (2 ^ 32 - 1 + 1) % 2 ^ 32 = 0 := by norm_num
    rw [this, Nat.zero_mod]

/-- C21 amended, at the initial state with three slots. -/
theorem offset_after_success_witness :
    (0 < 3 ∧ ((initial_state 3).count < 2 ^ 32 - 1 ∨ 3 ∣ 2 ^ 32)) ∧
    offsets (iteration { log := 0 } 3
        (iteration { log := 0 } 3 (initial_state 3) (outcome.success 7).env).1
        (outcome.success 8).env).2
      = [((initial_state 3).count % 3 + 1) % 3] :=
  ⟨⟨by decide, Or.inl (by decide)⟩,
    (offset_after_success { log := 0 } 3 (initial_state 3) 7 (outcome.success 8)
      (by decide)).2.1 (Or.inl (by decide))⟩

end SecureSocket
